import Mathlib

/-!
Verification of the Chillax.AI IDE's graph-layout and playback engine.

This file gives a shallow embedding, in Lean 4, of the two algorithmic
components of the repository:

* the step-playback controller of the execution-flow Visualizer
  (src/unnamed/part_004): dimAll / resetAll / glowNode / glowEdge /
  showStep / playLoop / togglePlay / stepFwd / reset and the speed slider;
* the Code Map's force-directed layout builder and solver and its
  pan/zoom handler (src/unnamed/part_007): GNode / GEdge construction,
  forceLayout (seed placement, child placement, the 80-iteration force
  simulation, cross-module edges) and onWheel.

Modelling conventions, stated once here:

* JavaScript numbers are modelled as rationals (ℚ).  The only
  irrational primitives the layout code uses are Math.sqrt, Math.cos,
  Math.sin and Math.PI; these are abstracted into a JsMath record of
  functions, and every theorem about the layout quantifies over all
  JsMath instances, so each theorem in particular covers the real
  floating-point functions.
* Math.random(), called once per GNode construction (the pulse field),
  is modelled as a stream rand : Nat → ℚ indexed by creation order.
* JS object references from edges to nodes are modelled as indices into
  the node array (the source recovers the index with nodes.indexOf).
* A JS record field that the code may find absent is an Option; reading
  a field of undefined (a TypeError) is an Except.error.
* DOM state touched by the Visualizer's highlight helpers is modelled as
  total style maps keyed by the step sid (for nodes) and by the
  (parent sid, child sid) pair (for edges), together with presence
  predicates playing the role of a querySelector returning null.
  Purely cosmetic style fields (CSS transitions) and scrolling are not
  modelled.  Unique sids are an invariant of the data model (spec §3).
* The awaited inter-step delay of the async play loop is modelled by a
  pending list of suspended loop continuations, each remembering its
  loop-local index i; a Wake event resumes one continuation, which is
  exactly one more evaluation of the loop condition and body.
-/

/- ───────────────────────── Code Map: pan/zoom (part_007) ───────────────────────── -/

/-- The pan/zoom view state owned by the Code Map's render loop
(part_007: state.pan, state.zoom).  A model point p is drawn at screen
position pan + zoom * p (ctx.translate then ctx.scale). -/
structure ViewState where
  panX : ℚ
  panY : ℚ
  zoom : ℚ
deriving DecidableEq

/-- Wheel handler of part_007 (onWheel, lines 382-391): the new zoom is
clamped to [0.2, 4] after multiplying by 0.9 (deltaY > 0) or 1.1, and the
pan is recomputed so the cursor-anchored point stays fixed. -/
def onWheel (s : ViewState) (deltaY mx my : ℚ) : ViewState :=
  let oz := s.zoom
  let z := max (1/5) (min 4 (s.zoom * (if 0 < deltaY then 9/10 else 11/10)))
  { panX := mx - (mx - s.panX) * (z / oz)
    panY := my - (my - s.panY) * (z / oz)
    zoom := z }

/- ───────────────────────── Visualizer: speed slider (part_004) ───────────────────────── -/

/-- Minimum of the speed slider's range attribute (part_004 line 340). -/
def sliderMin : ℚ := 200

/-- Maximum of the speed slider's range attribute (part_004 line 340). -/
def sliderMax : ℚ := 2000

/-- The speed state (the effective per-step delay in ms, awaited by the
play loop) as a function of the slider position v: the onChange handler
runs setSpeed(2200 - v) (part_004 line 341). -/
def speedFromSlider (v : ℚ) : ℚ := 2200 - v

/-- The displayed slider position as a function of the speed state: the
input's value attribute is 2200 - speed (part_004 line 341). -/
def sliderFromSpeed (speed : ℚ) : ℚ := 2200 - speed

/- ───────────────────────── Theorems: C7 and C10 ───────────────────────── -/

/-- C7: for every wheel event in the Code Map, with new zoom
clamp(zoom * (0.9 | 1.1), 0.2, 4) and pan' = cursor - (cursor - pan) * (zoom'/zoom),
the model point that was under the cursor ((cursor - pan)/zoom) maps to
the same screen position (model * zoom' + pan' = cursor) after the
event, exactly, in exact (rational, hence real) arithmetic. -/
theorem C7_wheel_cursor_fixed (s : ViewState) (deltaY mx my : ℚ)
    (hz : s.zoom ≠ 0) :
    ((mx - s.panX) / s.zoom) * (onWheel s deltaY mx my).zoom + (onWheel s deltaY mx my).panX = mx ∧
    ((my - s.panY) / s.zoom) * (onWheel s deltaY mx my).zoom + (onWheel s deltaY mx my).panY = my ∧
    (onWheel s deltaY mx my).zoom
      = max (1/5) (min 4 (s.zoom * (if 0 < deltaY then 9/10 else 11/10))) := by
  refine ⟨?_, ?_, rfl⟩ <;>
    · simp only [onWheel]
      generalize max (1/5) (min 4 (s.zoom * (if 0 < deltaY then 9/10 else 11/10))) = z
      rw [div_mul_eq_mul_div, mul_div_assoc]
      ring

/-- Witness for C7 at the concrete state pan = (0,0), zoom = 1, a
zoom-out wheel event (deltaY = 1) at cursor (100, 50). -/
theorem C7_wheel_cursor_fixed_witness :
    ((100 - (ViewState.mk 0 0 1).panX) / (ViewState.mk 0 0 1).zoom)
        * (onWheel (ViewState.mk 0 0 1) 1 100 50).zoom
        + (onWheel (ViewState.mk 0 0 1) 1 100 50).panX = 100 ∧
    ((50 - (ViewState.mk 0 0 1).panY) / (ViewState.mk 0 0 1).zoom)
        * (onWheel (ViewState.mk 0 0 1) 1 100 50).zoom
        + (onWheel (ViewState.mk 0 0 1) 1 100 50).panY = 50 ∧
    (onWheel (ViewState.mk 0 0 1) 1 100 50).zoom
      = max (1/5) (min 4 ((ViewState.mk 0 0 1).zoom * (if (0:ℚ) < 1 then 9/10 else 11/10))) :=
  C7_wheel_cursor_fixed (ViewState.mk 0 0 1) 1 100 50 (by norm_num)

/-- C10 counterexample: the claim says the effective delay equals
maxSlider - v; at the slider position v = 2000 the code's delay is
2200 - 2000 = 200 ms, not 2000 - 2000 = 0 ms (and 0 would also fall
outside the claimed 200-2000 ms range). -/
theorem C10_slider_cex :
    speedFromSlider 2000 = 200 ∧ speedFromSlider 2000 ≠ sliderMax - 2000 := by
  constructor <;> norm_num [speedFromSlider, sliderMax]

/-- C10 (amended): for every slider value v in the accepted range
[sliderMin, sliderMax] = [200, 2000], the effective per-step delay is
(sliderMin + sliderMax) - v = 2200 - v (so a smaller slider position is
slower: the delay is strictly antitone in v), and the delay lies in the
200-2000 ms range. -/
theorem C10_slider_amended (v : ℚ) (h1 : sliderMin ≤ v) (h2 : v ≤ sliderMax) :
    speedFromSlider v = (sliderMin + sliderMax) - v ∧
    200 ≤ speedFromSlider v ∧ speedFromSlider v ≤ 2000 ∧
    (∀ w : ℚ, v < w → speedFromSlider w < speedFromSlider v) := by
  simp only [speedFromSlider, sliderMin, sliderMax] at *
  refine ⟨by norm_num, by linarith, by linarith, fun w hw => by linarith⟩

/-- Witness for C10 (amended) at the concrete slider position v = 600:
the delay is 1600 ms, inside the range, and moving the slider to 700
makes the delay smaller (faster). -/
theorem C10_slider_amended_witness :
    speedFromSlider 600 = (sliderMin + sliderMax) - 600 ∧
    200 ≤ speedFromSlider 600 ∧ speedFromSlider 600 ≤ 2000 ∧
    (∀ w : ℚ, 600 < w → speedFromSlider w < speedFromSlider 600) :=
  C10_slider_amended 600 (by norm_num [sliderMin]) (by norm_num [sliderMax])

/- ───────────────────────── Visualizer: data model (part_004) ───────────────────────── -/

/-- One execution-trace step as delivered by the backend
(data.steps entries consumed by part_004): parent is absent for the
root; the code's truthiness test "if (s.parent)" also rejects the id 0. -/
structure Step where
  id : Int
  sid : String
  parent : Option Int
  kind : String
  label : String
  line : Int
deriving DecidableEq

/-- The glow style attached to a step kind (part_004 GLOW table). -/
structure GlowStyle where
  color : String
  bg : String
deriving DecidableEq

/-- The GLOW table of part_004 (lines 37-47), keyed exactly as the source
object is, by kind + "Style". -/
def GLOW : List (String × GlowStyle) :=
  [("startStyle", ⟨"#58a6ff", "#58a6ff22"⟩),
   ("defineStyle", ⟨"#bc8cff", "#bc8cff22"⟩),
   ("callStyle", ⟨"#3fb950", "#3fb95022"⟩),
   ("importStyle", ⟨"#39d2c0", "#39d2c022"⟩),
   ("conditionStyle", ⟨"#d29922", "#d2992222"⟩),
   ("loopStyle", ⟨"#f778ba", "#f778ba22"⟩),
   ("returnStyle", ⟨"#f85149", "#f8514922"⟩),
   ("classStyle", ⟨"#d29922", "#d2992222"⟩),
   ("assignStyle", ⟨"#8b949e", "#8b949e22"⟩)]

/-- Fallback glow (part_004 DEF_GLOW). -/
def DEF_GLOW : GlowStyle := ⟨"#58a6ff", "#58a6ff22"⟩

/-- Association-list lookup with first-match semantics (the JS object
lookup GLOW[kind + "Style"]). -/
def lookupS {α : Type} : List (String × α) → String → Option α
  | [], _ => none
  | (k, v) :: rest, key => if k = key then some v else lookupS rest key

/-- The glow style selected for a step kind:
GLOW[kind + "Style"] || DEF_GLOW (part_004 line 109). -/
def glowOf (kind : String) : GlowStyle :=
  (lookupS GLOW (kind ++ "Style")).getD DEF_GLOW

/-- The inline style of one diagram node: its opacity and its filter,
none standing for the CSS value "none" and some c for the kind-colored
drop-shadow glow with color c. -/
structure NodeStyle where
  opacity : ℚ
  filter : Option String
deriving DecidableEq

/-- The inline style of one diagram edge: opacity, stroke override
(none = the stylesheet default ''), stroke width override, dash pattern
flag (strokeDasharray '8 4') and flow-animation flag. -/
structure EdgeStyle where
  opacity : ℚ
  stroke : Option String
  width : Option ℚ
  dash : Bool
  anim : Bool
deriving DecidableEq

/-- The node style resetAll writes (part_004 lines 89-93). -/
def neutralNodeStyle : NodeStyle := ⟨1, none⟩

/-- The edge style resetAll writes (part_004 lines 94-101). -/
def neutralEdgeStyle : EdgeStyle := ⟨7/10, none, none, false, false⟩

/-- The edge style glowEdge writes (part_004 lines 121-127). -/
def glowEdgeStyle : EdgeStyle := ⟨1, some "#58a6ff", some 3, true, true⟩

/-- The rendered diagram's mutable style state.  A node is addressed by
the sid embedded in its DOM id (querySelector for flowchart-sid-), an
edge by the (source sid, target sid) pair its DOM id contains; the
presence maps model a querySelector returning null (the code's
"if (n)" guards).  Presence is fixed by the one-time mermaid render and
is never changed by the highlight helpers. -/
structure SvgState where
  nodePresent : String → Bool
  node : String → NodeStyle
  edgePresent : String → String → Bool
  edge : String → String → EdgeStyle

/-- Pointwise update of the node style map at one sid. -/
def setNode (f : String → NodeStyle) (sid : String) (st : NodeStyle) : String → NodeStyle :=
  fun s => if s = sid then st else f s

/-- Pointwise update of the edge style map at one (from, to) pair. -/
def setEdge (f : String → String → EdgeStyle) (a b : String) (st : EdgeStyle) :
    String → String → EdgeStyle :=
  fun x y => if x = a ∧ y = b then st else f x y

/-- dimAll (part_004 lines 72-84): every present node drops to opacity
0.2 with filter 'none'; every present edge drops to opacity 0.08.  The
edge's stroke/dash/animation overrides are left in place (only resetAll
clears them). -/
def dimAll (svg : SvgState) : SvgState :=
  { svg with
    node := fun sid =>
      if svg.nodePresent sid then { opacity := 1/5, filter := none } else svg.node sid
    edge := fun a b =>
      if svg.edgePresent a b then { svg.edge a b with opacity := 2/25 } else svg.edge a b }

/-- resetAll (part_004 lines 86-102): every present node back to opacity
1 / filter 'none'; every present edge back to opacity 0.7 with the
stroke, width, dash and animation overrides cleared. -/
def resetAll (svg : SvgState) : SvgState :=
  { svg with
    node := fun sid => if svg.nodePresent sid then neutralNodeStyle else svg.node sid
    edge := fun a b => if svg.edgePresent a b then neutralEdgeStyle else svg.edge a b }

/-- glowNode (part_004 lines 104-113): if the node for sid is present,
set it to full opacity with the kind-colored drop-shadow filter. -/
def glowNode (svg : SvgState) (sid kind : String) : SvgState :=
  if svg.nodePresent sid then
    { svg with node := setNode svg.node sid ⟨1, some (glowOf kind).color⟩ }
  else svg

/-- glowEdge (part_004 lines 115-130): every present edge whose id names
the (fromSid, toSid) pair becomes a full-opacity animated dashed blue
stroke. -/
def glowEdge (svg : SvgState) (fromSid toSid : String) : SvgState :=
  if svg.edgePresent fromSid toSid then
    { svg with edge := setEdge svg.edge fromSid toSid glowEdgeStyle }
  else svg

/- ───────────────────────── Visualizer: playback state (part_004) ───────────────────────── -/

/-- The Visualizer's playback state: the loaded steps, the curStep React
state (-1 = nothing shown), the playing React state, the playRef loop
guard, the multiset of suspended play-loop continuations (each awaiting
its inter-step delay, remembering the loop-local index it will resume
at) and the diagram style state. -/
structure VizState where
  steps : List Step
  curStep : Int
  playing : Bool
  playRef : Bool
  pending : List Nat
  svg : SvgState

/-- Node half of the trail pass body of showStep (part_004 lines
141-147) at trail index i: if the step's node is present, set its
opacity to 1 (i = idx) or 0.5, and on i = idx give it the kind-colored
glow. -/
def trailNode (steps : List Step) (idx : Nat) (svg : SvgState) (i : Nat) : SvgState :=
  match steps.get? i with
  | none => svg
  | some s =>
    if svg.nodePresent s.sid then
      let svg' := { svg with
        node := setNode svg.node s.sid
          { svg.node s.sid with opacity := if i = idx then 1 else 1/2 } }
      if i = idx then glowNode svg' s.sid s.kind else svg'
    else svg

/-- Edge half of the trail pass body of showStep (part_004 lines
148-151) at trail index i: when the step records a truthy parent id
that resolves to an earlier step, glow the edge from the parent step's
node to this step's node. -/
def trailParentEdge (steps : List Step) (svg : SvgState) (i : Nat) : SvgState :=
  match steps.get? i with
  | none => svg
  | some s =>
    match s.parent with
    | none => svg
    | some pid =>
      if pid = 0 then svg
      else
        match steps.find? (fun x => x.id = pid) with
        | none => svg
        | some ps => glowEdge svg ps.sid s.sid

/-- Trail pass body of showStep (part_004 lines 139-152) for one trail
index i: the node half followed by the parent-edge half. -/
def trailStep (steps : List Step) (idx : Nat) (svg : SvgState) (i : Nat) : SvgState :=
  trailParentEdge steps (trailNode steps idx svg i) i

/-- showStep's in-range body (part_004 lines 136-153): dim everything,
then walk the trail indices 0..idx, then record idx as the current
step.  (The closing scroll-into-view block is pure DOM scrolling and is
not modelled.) -/
def showStepRun (st : VizState) (idx : Nat) : VizState :=
  let svg1 := dimAll st.svg
  let svg2 := (List.range (idx + 1)).foldl (trailStep st.steps idx) svg1
  { st with svg := svg2, curStep := (idx : Int) }

/-- showStep (part_004 lines 133-165): a no-op outside [0, steps.length). -/
def showStep (st : VizState) (idx : Int) : VizState :=
  if idx < 0 ∨ (st.steps.length : Int) ≤ idx then st else showStepRun st idx.toNat

/-- One evaluation of the play loop's condition and body (part_004
lines 171-176), entered either fresh from playLoop or on wake-up from
the awaited delay with loop-local index i: while the guard is up and
steps remain, show step i and suspend again at i + 1; on falling out of
the loop with i past the end, drop the guard and leave play mode. -/
def loopEnter (st : VizState) (i : Nat) : VizState :=
  if st.playRef ∧ i < st.steps.length then
    let st' := showStepRun st i
    { st' with pending := st'.pending ++ [i + 1] }
  else if st.steps.length ≤ i then
    { st with playRef := false, playing := false }
  else st

/-- playLoop (part_004 lines 168-177): raise the guard and run the loop
from the start index up to its first suspension. -/
def playLoop (st : VizState) (start : Nat) : VizState :=
  loopEnter { st with playRef := true } start

/-- togglePlay (part_004 lines 179-182): pause when playing; otherwise
enter play mode and start the loop at 0 (when the index is at or past
the last step) or at curStep + 1. -/
def togglePlay (st : VizState) : VizState :=
  if st.playing then { st with playRef := false, playing := false }
  else
    let start : Int :=
      if (st.steps.length : Int) - 1 ≤ st.curStep then 0 else st.curStep + 1
    playLoop { st with playing := true } start.toNat

/-- stepFwd (part_004 lines 184-187): drop the guard, leave play mode,
and show the next step when one exists. -/
def stepFwd (st : VizState) : VizState :=
  let st1 := { st with playRef := false, playing := false }
  if st.curStep + 1 < (st.steps.length : Int) then showStep st1 (st.curStep + 1) else st1

/-- reset (part_004 lines 189-191): drop the guard, leave play mode,
forget the index and restore every present node and edge to the neutral
style. -/
def reset (st : VizState) : VizState :=
  { st with playRef := false, playing := false, curStep := -1, svg := resetAll st.svg }

/-- One suspended play-loop continuation firing: remove it from the
pending list and re-evaluate the loop condition at its saved index. -/
def wake (st : VizState) (k : Nat) : VizState :=
  match st.pending.get? k with
  | none => st
  | some i => loopEnter { st with pending := st.pending.eraseIdx k } i

/-- The playback command alphabet: the three toolbar buttons, a direct
node click (showStep), and the firing of one pending inter-step delay. -/
inductive PlayCmd where
  | play : PlayCmd
  | stepF : PlayCmd
  | resetC : PlayCmd
  | show : Int → PlayCmd
  | wakeC : Nat → PlayCmd

/-- Interpretation of one playback command. -/
def execCmd (st : VizState) : PlayCmd → VizState
  | .play => togglePlay st
  | .stepF => stepFwd st
  | .resetC => reset st
  | .show i => showStep st i
  | .wakeC k => wake st k

/-- Interpretation of a command sequence, oldest first. -/
def runCmds (st : VizState) (cs : List PlayCmd) : VizState :=
  cs.foldl execCmd st

/- ───────────────────────── C1: playback transitions ───────────────────────── -/

/-- C1: with L = steps.length: StepForward at index i with i + 1 < L
sets the index to i + 1 and leaves play mode; StepForward at i = L - 1
leaves the index unchanged; Play pressed (not playing) with the index
at or past the last step restarts playback from index 0; Reset sets the
index to -1 and restores every present diagram node and edge to the
neutral style; and ShowStep(i) outside [0, L) changes nothing. -/
theorem C1_playback_transitions (s : VizState) :
    (-1 ≤ s.curStep → s.curStep + 1 < (s.steps.length : Int) →
       (stepFwd s).curStep = s.curStep + 1 ∧ (stepFwd s).playing = false) ∧
    (s.curStep = (s.steps.length : Int) - 1 → (stepFwd s).curStep = s.curStep) ∧
    (s.playing = false → (s.steps.length : Int) - 1 ≤ s.curStep → 0 < s.steps.length →
       (togglePlay s).curStep = 0 ∧ (togglePlay s).playing = true) ∧
    ((reset s).curStep = -1 ∧
      (∀ sid, s.svg.nodePresent sid = true → (reset s).svg.node sid = neutralNodeStyle) ∧
      (∀ a b, s.svg.edgePresent a b = true → (reset s).svg.edge a b = neutralEdgeStyle)) ∧
    (∀ i : Int, i < 0 ∨ (s.steps.length : Int) ≤ i → showStep s i = s) := by
  refine ⟨?_, ?_, ?_, ⟨rfl, ?_, ?_⟩, ?_⟩
  · intro h1 h2
    have h0 : ¬(s.curStep + 1 < 0 ∨ (s.steps.length : Int) ≤ s.curStep + 1) := by omega
    simp only [stepFwd, if_pos h2, showStep, if_neg h0, showStepRun]
    exact ⟨Int.toNat_of_nonneg (by omega), by trivial⟩
  · intro h
    have h2 : ¬(s.curStep + 1 < (s.steps.length : Int)) := by omega
    simp only [stepFwd, if_neg h2]
  · intro hp hc hl
    have hstart : (if (s.steps.length : Int) - 1 ≤ s.curStep then (0 : Int) else s.curStep + 1) = 0 :=
      if_pos hc
    simp only [togglePlay, hp, Bool.false_eq_true, if_false, hstart, playLoop, loopEnter]
    constructor <;>
      · split
        · simp [showStepRun]
        · rename_i hcond
          exact absurd ⟨by trivial, by simpa using hl⟩ hcond
  · intro sid h
    simp [reset, resetAll, h]
  · intro a b h
    simp [reset, resetAll, h]
  · intro i hi
    simp only [showStep, if_pos hi]

/- ───────────────────────── C2: highlight trail lemmas ───────────────────────── -/

/-- glowNode never changes which nodes exist. -/
theorem glowNode_nodePresent (svg : SvgState) (sid kind : String) :
    (glowNode svg sid kind).nodePresent = svg.nodePresent := by
  unfold glowNode; split <;> rfl

/-- glowNode never touches edge styles. -/
theorem glowNode_edge (svg : SvgState) (sid kind : String) :
    (glowNode svg sid kind).edge = svg.edge := by
  unfold glowNode; split <;> rfl

/-- glowNode never changes which edges exist. -/
theorem glowNode_edgePresent (svg : SvgState) (sid kind : String) :
    (glowNode svg sid kind).edgePresent = svg.edgePresent := by
  unfold glowNode; split <;> rfl

/-- glowNode leaves every other node's style alone. -/
theorem glowNode_node_ne (svg : SvgState) (nsid kind sid : String) (h : sid ≠ nsid) :
    (glowNode svg nsid kind).node sid = svg.node sid := by
  unfold glowNode; split
  · simp [setNode, h]
  · rfl

/-- glowEdge never touches node styles. -/
theorem glowEdge_node (svg : SvgState) (a b : String) :
    (glowEdge svg a b).node = svg.node := by
  unfold glowEdge; split <;> rfl

/-- glowEdge never changes which nodes exist. -/
theorem glowEdge_nodePresent (svg : SvgState) (a b : String) :
    (glowEdge svg a b).nodePresent = svg.nodePresent := by
  unfold glowEdge; split <;> rfl

/-- glowEdge never changes which edges exist. -/
theorem glowEdge_edgePresent (svg : SvgState) (a b : String) :
    (glowEdge svg a b).edgePresent = svg.edgePresent := by
  unfold glowEdge; split <;> rfl

/-- glowEdge leaves every edge with a different target alone. -/
theorem glowEdge_edge_ne (svg : SvgState) (a b x y : String) (h : y ≠ b) :
    (glowEdge svg a b).edge x y = svg.edge x y := by
  unfold glowEdge; split
  · simp [setEdge]
    intro _ hy
    exact absurd hy h
  · rfl

/-- The node half of the trail pass never changes which nodes exist. -/
theorem trailNode_nodePresent (steps : List Step) (idx : Nat) (svg : SvgState) (i : Nat) :
    (trailNode steps idx svg i).nodePresent = svg.nodePresent := by
  unfold trailNode
  cases steps.get? i
  · rfl
  · dsimp only
    split
    · split
      · rw [glowNode_nodePresent]
      · rfl
    · rfl

/-- The node half of the trail pass never touches edge styles. -/
theorem trailNode_edge (steps : List Step) (idx : Nat) (svg : SvgState) (i : Nat) :
    (trailNode steps idx svg i).edge = svg.edge := by
  unfold trailNode
  cases steps.get? i
  · rfl
  · dsimp only
    split
    · split
      · rw [glowNode_edge]
      · rfl
    · rfl

/-- The node half of the trail pass never changes which edges exist. -/
theorem trailNode_edgePresent (steps : List Step) (idx : Nat) (svg : SvgState) (i : Nat) :
    (trailNode steps idx svg i).edgePresent = svg.edgePresent := by
  unfold trailNode
  cases steps.get? i
  · rfl
  · dsimp only
    split
    · split
      · rw [glowNode_edgePresent]
      · rfl
    · rfl

/-- The edge half of the trail pass never touches node styles. -/
theorem trailParentEdge_node (steps : List Step) (svg : SvgState) (i : Nat) :
    (trailParentEdge steps svg i).node = svg.node := by
  unfold trailParentEdge
  cases steps.get? i
  · rfl
  · rename_i s
    dsimp only
    cases s.parent
    · rfl
    · rename_i pid
      dsimp only
      split
      · rfl
      · cases steps.find? (fun x => x.id = pid)
        · rfl
        · rw [glowEdge_node]

/-- The edge half of the trail pass never changes which nodes exist. -/
theorem trailParentEdge_nodePresent (steps : List Step) (svg : SvgState) (i : Nat) :
    (trailParentEdge steps svg i).nodePresent = svg.nodePresent := by
  unfold trailParentEdge
  cases steps.get? i
  · rfl
  · rename_i s
    dsimp only
    cases s.parent
    · rfl
    · rename_i pid
      dsimp only
      split
      · rfl
      · cases steps.find? (fun x => x.id = pid)
        · rfl
        · rw [glowEdge_nodePresent]

/-- The edge half of the trail pass never changes which edges exist. -/
theorem trailParentEdge_edgePresent (steps : List Step) (svg : SvgState) (i : Nat) :
    (trailParentEdge steps svg i).edgePresent = svg.edgePresent := by
  unfold trailParentEdge
  cases steps.get? i
  · rfl
  · rename_i s
    dsimp only
    cases s.parent
    · rfl
    · rename_i pid
      dsimp only
      split
      · rfl
      · cases steps.find? (fun x => x.id = pid)
        · rfl
        · rw [glowEdge_edgePresent]

/-- The full trail pass never changes which nodes exist. -/
theorem trailStep_nodePresent (steps : List Step) (idx : Nat) (svg : SvgState) (i : Nat) :
    (trailStep steps idx svg i).nodePresent = svg.nodePresent := by
  unfold trailStep
  rw [trailParentEdge_nodePresent, trailNode_nodePresent]

/-- The full trail pass never changes which edges exist. -/
theorem trailStep_edgePresent (steps : List Step) (idx : Nat) (svg : SvgState) (i : Nat) :
    (trailStep steps idx svg i).edgePresent = svg.edgePresent := by
  unfold trailStep
  rw [trailParentEdge_edgePresent, trailNode_edgePresent]

/-- The node half leaves a node alone whenever the processed step (if
any) carries a different sid. -/
theorem trailNode_node_untouched (steps : List Step) (idx : Nat) (svg : SvgState) (i : Nat)
    (sid : String) (h : ∀ s, steps.get? i = some s → s.sid ≠ sid) :
    (trailNode steps idx svg i).node sid = svg.node sid := by
  unfold trailNode
  cases hg : steps.get? i
  · rfl
  · rename_i s
    have hs : sid ≠ s.sid := (h s hg).symm
    dsimp only
    split
    · split
      · rw [glowNode_node_ne _ _ _ _ hs]
        simp [setNode, hs]
      · simp [setNode, hs]
    · rfl

/-- The full trail pass leaves a node alone whenever the processed step
(if any) carries a different sid. -/
theorem trailStep_node_untouched (steps : List Step) (idx : Nat) (svg : SvgState) (i : Nat)
    (sid : String) (h : ∀ s, steps.get? i = some s → s.sid ≠ sid) :
    (trailStep steps idx svg i).node sid = svg.node sid := by
  unfold trailStep
  rw [trailParentEdge_node, trailNode_node_untouched _ _ _ _ _ h]

/-- The edge half leaves an edge alone whenever the processed step (if
any) carries a sid different from the edge's target sid. -/
theorem trailParentEdge_edge_untouched (steps : List Step) (svg : SvgState) (i : Nat)
    (a b : String) (h : ∀ s, steps.get? i = some s → s.sid ≠ b) :
    (trailParentEdge steps svg i).edge a b = svg.edge a b := by
  unfold trailParentEdge
  cases hg : steps.get? i
  · rfl
  · rename_i s
    dsimp only
    cases s.parent
    · rfl
    · rename_i pid
      dsimp only
      split
      · rfl
      · cases steps.find? (fun x => x.id = pid)
        · rfl
        · rename_i ps
          exact glowEdge_edge_ne svg ps.sid s.sid a b (Ne.symm (h s hg))

/-- The full trail pass leaves an edge alone whenever the processed
step (if any) carries a sid different from the edge's target sid. -/
theorem trailStep_edge_untouched (steps : List Step) (idx : Nat) (svg : SvgState) (i : Nat)
    (a b : String) (h : ∀ s, steps.get? i = some s → s.sid ≠ b) :
    (trailStep steps idx svg i).edge a b = svg.edge a b := by
  unfold trailStep
  have h' : ∀ s, steps.get? i = some s → s.sid ≠ b := h
  rw [trailParentEdge_edge_untouched _ _ _ _ _ h', trailNode_edge]

/-- The trail fold never changes which nodes exist. -/
theorem foldTrail_nodePresent (steps : List Step) (idx : Nat) (l : List Nat) (svg : SvgState) :
    ((l.foldl (trailStep steps idx) svg).nodePresent) = svg.nodePresent := by
  induction l generalizing svg with
  | nil => rfl
  | cons a t ih => rw [List.foldl_cons, ih, trailStep_nodePresent]

/-- The trail fold never changes which edges exist. -/
theorem foldTrail_edgePresent (steps : List Step) (idx : Nat) (l : List Nat) (svg : SvgState) :
    ((l.foldl (trailStep steps idx) svg).edgePresent) = svg.edgePresent := by
  induction l generalizing svg with
  | nil => rfl
  | cons a t ih => rw [List.foldl_cons, ih, trailStep_edgePresent]

/-- The trail fold leaves a node alone when no processed trail index
carries its sid. -/
theorem foldTrail_node_untouched (steps : List Step) (idx : Nat) (l : List Nat) (svg : SvgState)
    (sid : String) (h : ∀ i ∈ l, ∀ s, steps.get? i = some s → s.sid ≠ sid) :
    (l.foldl (trailStep steps idx) svg).node sid = svg.node sid := by
  induction l generalizing svg with
  | nil => rfl
  | cons a t ih =>
    rw [List.foldl_cons, ih _ (fun i hi => h i (List.mem_cons_of_mem _ hi)),
      trailStep_node_untouched _ _ _ _ _ (h a (List.mem_cons_self _ _))]

/-- The trail fold leaves an edge alone when no processed trail index
carries the edge's target sid. -/
theorem foldTrail_edge_untouched (steps : List Step) (idx : Nat) (l : List Nat) (svg : SvgState)
    (a b : String) (h : ∀ i ∈ l, ∀ s, steps.get? i = some s → s.sid ≠ b) :
    (l.foldl (trailStep steps idx) svg).edge a b = svg.edge a b := by
  induction l generalizing svg with
  | nil => rfl
  | cons c t ih =>
    rw [List.foldl_cons, ih _ (fun i hi => h i (List.mem_cons_of_mem _ hi)),
      trailStep_edge_untouched _ _ _ _ _ _ (h c (List.mem_cons_self _ _))]

/-- The style the node half writes for its own step: full opacity with
the kind-colored glow at the shown index, half opacity (keeping the
filter) on the rest of the trail. -/
theorem trailNode_node_set (steps : List Step) (idx : Nat) (svg : SvgState) (i : Nat) (s : Step)
    (hg : steps.get? i = some s) (hp : svg.nodePresent s.sid = true) :
    (trailNode steps idx svg i).node s.sid
      = if i = idx then NodeStyle.mk 1 (some (glowOf s.kind).color)
        else { svg.node s.sid with opacity := 1/2 } := by
  by_cases hidx : i = idx
  · subst hidx
    simp only [trailNode, hg, hp, if_true, if_pos rfl]
    simp [glowNode, setNode, hp]
  · simp only [trailNode, hg, hp, if_true, if_neg hidx]
    simp [setNode]

/-- The style the full trail pass writes for its own step's node. -/
theorem trailStep_node_set (steps : List Step) (idx : Nat) (svg : SvgState) (i : Nat) (s : Step)
    (hg : steps.get? i = some s) (hp : svg.nodePresent s.sid = true) :
    (trailStep steps idx svg i).node s.sid
      = if i = idx then NodeStyle.mk 1 (some (glowOf s.kind).color)
        else { svg.node s.sid with opacity := 1/2 } := by
  unfold trailStep
  rw [trailParentEdge_node, trailNode_node_set _ _ _ _ _ hg hp]

/-- The style a trail fold leaves on the node of a step whose index
occurs in the fold, provided no other processed index carries the same
sid: the glow style at the shown index, the half-opacity trail style
otherwise. -/
theorem foldTrail_node_set (steps : List Step) (idx : Nat) (l : List Nat) (svg : SvgState)
    (i : Nat) (s : Step) (hi : i ∈ l) (hnd : l.Nodup) (hg : steps.get? i = some s)
    (huniq : ∀ j ∈ l, ∀ t, steps.get? j = some t → t.sid = s.sid → j = i)
    (hp : svg.nodePresent s.sid = true) :
    (l.foldl (trailStep steps idx) svg).node s.sid
      = if i = idx then NodeStyle.mk 1 (some (glowOf s.kind).color)
        else { svg.node s.sid with opacity := 1/2 } := by
  induction l generalizing svg with
  | nil => cases hi
  | cons a t ih =>
    rw [List.foldl_cons]
    rcases List.mem_cons.mp hi with rfl | hmem
    · have hrest : ∀ j ∈ t, ∀ u, steps.get? j = some u → u.sid ≠ s.sid := by
        intro j hj u hu hequ
        have hj_eq := huniq j (List.mem_cons_of_mem _ hj) u hu hequ
        exact absurd (hj_eq ▸ hj) (List.nodup_cons.mp hnd).1
      rw [foldTrail_node_untouched _ _ _ _ _ hrest, trailStep_node_set _ _ _ _ _ hg hp]
    · have hai : a ≠ i := by
        intro hcontra
        exact absurd (hcontra ▸ hmem) (List.nodup_cons.mp hnd).1
      have ha : ∀ u, steps.get? a = some u → u.sid ≠ s.sid := by
        intro u hu hequ
        exact hai (huniq a (List.mem_cons_self _ _) u hu hequ)
      have hp' : (trailStep steps idx svg a).nodePresent s.sid = true := by
        rw [trailStep_nodePresent]; exact hp
      rw [ih (trailStep steps idx svg a) hmem (List.nodup_cons.mp hnd).2
          (fun j hj => huniq j (List.mem_cons_of_mem _ hj)) hp',
        trailStep_node_untouched _ _ _ _ _ ha]

/-- dimAll never changes which nodes or edges exist. -/
theorem dimAll_present (svg : SvgState) :
    (dimAll svg).nodePresent = svg.nodePresent ∧ (dimAll svg).edgePresent = svg.edgePresent :=
  ⟨rfl, rfl⟩

/-- The style dimAll writes on a present node. -/
theorem dimAll_node (svg : SvgState) (sid : String) (h : svg.nodePresent sid = true) :
    (dimAll svg).node sid = NodeStyle.mk (1/5) none := by
  simp [dimAll, h]

/-- The opacity dimAll writes on a present edge. -/
theorem dimAll_edge (svg : SvgState) (a b : String) (h : svg.edgePresent a b = true) :
    (dimAll svg).edge a b = { svg.edge a b with opacity := 2/25 } := by
  simp [dimAll, h]

/-- Positions in a list whose mapped sids are nodup and agree must be
equal: uniqueness of sid values pins the step index. -/
theorem sid_index_unique (steps : List Step) (hN : (steps.map Step.sid).Nodup)
    {j i : Nat} {t s : Step} (ht : steps.get? j = some t) (hs : steps.get? i = some s)
    (heq : t.sid = s.sid) : j = i := by
  have h1 : (steps.map Step.sid).get? j = some t.sid := by
    rw [List.get?_map, ht]
    rfl
  have h2 : (steps.map Step.sid).get? i = some s.sid := by
    rw [List.get?_map, hs]
    rfl
  have hlt : j < (steps.map Step.sid).length := by
    by_contra hge
    rw [List.get?_eq_none.mpr (le_of_not_lt hge)] at h1
    cases h1
  apply List.get?_inj hlt hN
  rw [h1, h2, heq]

/- ───────────────────────── C2: the trail invariant ───────────────────────── -/

/-- C2: after ShowStep(idx) for a valid index idx (with the data-model
invariant that sids are unique and every step's diagram node is
present), every trail step j < idx has node opacity at least 0.5, step
idx's node has full opacity with the kind-colored glow, and every step
j > idx stays dimmed: node opacity exactly 0.2 with no glow filter,
and its incoming parent edge (when present) at opacity exactly 0.08
(the code's "about 0.1" dim value).  The statement quantifies over the
shown index, so the invariant holds at every shown index. -/
theorem C2_trail_invariant (st : VizState) (idx : Nat)
    (hidx : idx < st.steps.length)
    (hN : (st.steps.map Step.sid).Nodup)
    (hpres : ∀ s ∈ st.steps, st.svg.nodePresent s.sid = true) :
    (∀ j s, j < idx → st.steps.get? j = some s →
       1/2 ≤ ((showStep st (idx : Int)).svg.node s.sid).opacity) ∧
    (∀ s, st.steps.get? idx = some s →
       (showStep st (idx : Int)).svg.node s.sid
         = NodeStyle.mk 1 (some (glowOf s.kind).color)) ∧
    (∀ j s, idx < j → st.steps.get? j = some s →
       ((showStep st (idx : Int)).svg.node s.sid).opacity = 1/5 ∧
       ((showStep st (idx : Int)).svg.node s.sid).filter = none ∧
       (∀ pid ps, s.parent = some pid →
          st.steps.find? (fun x => x.id = pid) = some ps →
          st.svg.edgePresent ps.sid s.sid = true →
          ((showStep st (idx : Int)).svg.edge ps.sid s.sid).opacity = 2/25)) := by
  have hguard : ¬((idx : Int) < 0 ∨ (st.steps.length : Int) ≤ (idx : Int)) := by
    omega
  have hshow : showStep st (idx : Int) = showStepRun st idx := by
    unfold showStep
    rw [if_neg hguard]
    norm_num
  rw [hshow]
  unfold showStepRun
  dsimp only
  refine ⟨?_, ?_, ?_⟩
  · intro j s hj hg
    have hp' : (dimAll st.svg).nodePresent s.sid = true := hpres s (List.get?_mem hg)
    rw [foldTrail_node_set st.steps idx _ _ j s (List.mem_range.mpr (by omega))
        (List.nodup_range _) hg
        (fun k _ t htk hsid => sid_index_unique st.steps hN htk hg hsid) hp']
    rw [if_neg (by omega : ¬j = idx), dimAll_node st.svg s.sid (hpres s (List.get?_mem hg))]
  · intro s hg
    have hp' : (dimAll st.svg).nodePresent s.sid = true := hpres s (List.get?_mem hg)
    rw [foldTrail_node_set st.steps idx _ _ idx s (List.mem_range.mpr (by omega))
        (List.nodup_range _) hg
        (fun k _ t htk hsid => sid_index_unique st.steps hN htk hg hsid) hp']
    rw [if_pos rfl]
  · intro j s hj hg
    have huntouch : ∀ k ∈ List.range (idx + 1), ∀ t, st.steps.get? k = some t →
        t.sid ≠ s.sid := by
      intro k hk t htk hsid
      have := sid_index_unique st.steps hN htk hg hsid
      have hk' := List.mem_range.mp hk
      omega
    refine ⟨?_, ?_, ?_⟩
    · rw [foldTrail_node_untouched _ _ _ _ _ huntouch,
        dimAll_node st.svg s.sid (hpres s (List.get?_mem hg))]
    · rw [foldTrail_node_untouched _ _ _ _ _ huntouch,
        dimAll_node st.svg s.sid (hpres s (List.get?_mem hg))]
    · intro pid ps hpid hfind hep
      rw [foldTrail_edge_untouched _ _ _ _ _ _ huntouch,
        dimAll_edge st.svg ps.sid s.sid hep]

/- ───────────────────────── Concrete playback fixtures ───────────────────────── -/

/-- The two-step trace of the spec's scenario (§8): an entry step and a
call step whose parent is the entry step. -/
def exSteps : List Step :=
  [⟨1, "n1", none, "start", "entry", 1⟩, ⟨2, "n2", some 1, "call", "foo()", 5⟩]

/-- A rendered diagram in which every node and edge is present and
neutral. -/
def exSvg : SvgState :=
  ⟨fun _ => true, fun _ => neutralNodeStyle, fun _ _ => true, fun _ _ => neutralEdgeStyle⟩

/-- Freshly loaded playback state over the two-step trace. -/
def exState : VizState := ⟨exSteps, -1, false, false, [], exSvg⟩

/-- Witness for C2 on the two-step trace: ShowStep(0) glows n1's
start-blue and dims n2 (opacity 0.2, no filter) and the n1 to n2 edge
(opacity 0.08); ShowStep(1) keeps n1 at opacity at least 0.5 and glows
n2 call-green. -/
theorem C2_trail_invariant_witness :
    (showStep exState 0).svg.node "n1" = NodeStyle.mk 1 (some "#58a6ff") ∧
    ((showStep exState 0).svg.node "n2").opacity = 1/5 ∧
    ((showStep exState 0).svg.node "n2").filter = none ∧
    ((showStep exState 0).svg.edge "n1" "n2").opacity = 2/25 ∧
    1/2 ≤ ((showStep exState 1).svg.node "n1").opacity ∧
    (showStep exState 1).svg.node "n2" = NodeStyle.mk 1 (some "#3fb950") := by
  have h0 := C2_trail_invariant exState 0 (by decide) (by decide) (by decide)
  have h1 := C2_trail_invariant exState 1 (by decide) (by decide) (by decide)
  have hdim := h0.2.2 1 ⟨2, "n2", some 1, "call", "foo()", 5⟩ (by omega) rfl
  exact ⟨h0.2.1 ⟨1, "n1", none, "start", "entry", 1⟩ rfl,
    hdim.1, hdim.2.1,
    hdim.2.2 1 ⟨1, "n1", none, "start", "entry", 1⟩ rfl rfl rfl,
    h1.1 0 ⟨1, "n1", none, "start", "entry", 1⟩ (by omega) rfl,
    h1.2.1 ⟨2, "n2", some 1, "call", "foo()", 5⟩ rfl⟩

/- ───────────────────────── C3: stale inter-step delays ───────────────────────── -/

/-- Three-step trace used to exhibit the stale-timer race. -/
def c3Steps : List Step :=
  [⟨1, "n1", none, "start", "a", 1⟩, ⟨2, "n2", some 1, "call", "b", 2⟩,
   ⟨3, "n3", some 2, "call", "c", 3⟩]

/-- Freshly loaded playback state over the three-step trace. -/
def c3State : VizState := ⟨c3Steps, -1, false, false, [], exSvg⟩

/-- C3 counterexample: the claim fails on the command sequence
Play; Pause; Play; (new loop's delay fires).  After Play; Pause the
loop's inter-step delay (continuation at loop index 1) is pending and
cancelled (guard down).  Pressing Play again re-raises the shared
playRef guard and shows step 1, the new loop's delay fires moving the
index to 2 — and then the STALE delay from before the Pause fires,
sees the re-raised guard, and moves the current step index from 2 back
to 1: the cancelled timer modifies the index (and re-runs the highlight
pass), so it is not a no-op. -/
theorem C3_stale_timer_cex :
    (runCmds c3State [PlayCmd.play, PlayCmd.play]).pending = [1] ∧
    (runCmds c3State [PlayCmd.play, PlayCmd.play]).playRef = false ∧
    (runCmds c3State [PlayCmd.play, PlayCmd.play]).playing = false ∧
    (runCmds c3State [PlayCmd.play, PlayCmd.play, PlayCmd.play, PlayCmd.wakeC 1]).curStep = 2 ∧
    (runCmds c3State [PlayCmd.play, PlayCmd.play, PlayCmd.play, PlayCmd.wakeC 1]).pending = [1, 3] ∧
    (execCmd (runCmds c3State [PlayCmd.play, PlayCmd.play, PlayCmd.play, PlayCmd.wakeC 1])
        (PlayCmd.wakeC 0)).curStep = 1 := by
  refine ⟨rfl, rfl, rfl, rfl, rfl, rfl⟩

/-- C3 (amended): a stale inter-step delay firing after cancellation by
Pause, StepForward, or Reset is a no-op (changes neither the step
index, the highlight state, the playing flag nor the guard) as long as
no new Play has intervened, i.e. while the loop guard is still down and
playback is still off.  (If Play is pressed again before the stale
delay fires, the stale loop sees the shared re-raised guard and may
modify the index and highlight, as the counterexample shows; the code
guards with one shared boolean, not a loop-owned one.) -/
theorem C3_stale_timer_amended (s : VizState) (k : Nat)
    (href : s.playRef = false) (hplay : s.playing = false) :
    (wake s k).curStep = s.curStep ∧ (wake s k).playing = false ∧
    (wake s k).playRef = false ∧ (wake s k).svg = s.svg := by
  unfold wake
  cases hg : s.pending.get? k
  · exact ⟨rfl, hplay, href, rfl⟩
  · rename_i i
    dsimp only
    unfold loopEnter
    have hcond : ¬(({ s with pending := s.pending.eraseIdx k } : VizState).playRef = true ∧
        i < ({ s with pending := s.pending.eraseIdx k } : VizState).steps.length) := by
      intro hc
      rw [show ({ s with pending := s.pending.eraseIdx k } : VizState).playRef = s.playRef
        from rfl, href] at hc
      exact Bool.false_ne_true hc.1
    rw [if_neg hcond]
    split
    · exact ⟨rfl, rfl, rfl, rfl⟩
    · exact ⟨rfl, hplay, href, rfl⟩

/-- Witness for C3 (amended): after Play; Pause the state has the guard
down and playback off, and firing the stale pending delay leaves the
index, the flags and the whole highlight state untouched. -/
theorem C3_stale_timer_amended_witness :
    (wake (runCmds c3State [PlayCmd.play, PlayCmd.play]) 0).curStep
      = (runCmds c3State [PlayCmd.play, PlayCmd.play]).curStep ∧
    (wake (runCmds c3State [PlayCmd.play, PlayCmd.play]) 0).playing = false ∧
    (wake (runCmds c3State [PlayCmd.play, PlayCmd.play]) 0).playRef = false ∧
    (wake (runCmds c3State [PlayCmd.play, PlayCmd.play]) 0).svg
      = (runCmds c3State [PlayCmd.play, PlayCmd.play]).svg :=
  C3_stale_timer_amended (runCmds c3State [PlayCmd.play, PlayCmd.play]) 0 rfl rfl

/- ───────────────────────── Code Map: data model (part_007) ───────────────────────── -/

/-- The transcendental / irrational primitives of JS Math used by the
layout code, abstracted so that each layout theorem holds for every
implementation of them (in particular for IEEE doubles). -/
structure JsMath where
  sqrt : ℚ → ℚ
  cos : ℚ → ℚ
  sin : ℚ → ℚ
  pi : ℚ

/-- One function entry of a module in the analysis result. -/
structure FuncEntry where
  name : String
deriving DecidableEq

/-- One class entry of a module in the analysis result. -/
structure ClassEntry where
  name : String
deriving DecidableEq

/-- One module entry of the analysis result as a JS object.  The
builder reads the key "module" (part_007 lines 174-176, 181, 191); the
spec's interface section (§6) instead names the key "path".  Both are
carried as optional fields so an input whose identifier sits under the
other key is representable; reading a key the object does not carry
gives undefined. -/
structure ModuleEntry where
  module : Option String
  path : Option String
  functions : Option (List FuncEntry)
  classes : Option (List ClassEntry)
deriving DecidableEq

/-- One cross-module import edge entry of the analysis result. -/
structure EdgeEntry where
  source : String
  target : String
deriving DecidableEq

/-- The analysis result consumed by the builder; modules may be absent
(the code's graph?.modules guard). -/
structure GraphInput where
  modules : Option (List ModuleEntry)
  edges : Option (List EdgeEntry)
deriving DecidableEq

/-- A 2-D point or velocity. -/
structure Vec where
  x : ℚ
  y : ℚ
deriving DecidableEq

/-- A graph node (part_007 class GNode, lines 49-57).  tx/ty is the
layout target, x/y the animated position (seeded 50 above the target),
pulse the randomly seeded idle-pulsation phase. -/
structure GNode where
  id : String
  label : String
  type : String
  color : String
  tx : ℚ
  ty : ℚ
  x : ℚ
  y : ℚ
  r : ℚ
  cr : ℚ
  delay : ℚ
  t : ℚ
  dur : ℚ
  visible : Bool
  hover : Bool
  scale : ℚ
  opacity : ℚ
  pulse : ℚ
deriving DecidableEq

/-- A graph edge (part_007 class GEdge, lines 109-112).  src/tgt are
indices into the node array, standing for the JS object references. -/
structure GEdge where
  src : Nat
  tgt : Nat
  label : String
  color : String
  delay : ℚ
  t : ℚ
  dur : ℚ
  visible : Bool
  progress : ℚ
deriving DecidableEq

/-- The builder/solver output: the node and edge arrays. -/
structure Layout where
  nodes : List GNode
  edges : List GEdge
deriving DecidableEq

/-- Node colors by kind (part_007 NCOL). -/
def NCOL : List (String × String) :=
  [("module", "#58a6ff"), ("function", "#bc8cff"), ("class", "#d29922")]

/-- The GNode constructor (part_007 lines 50-57): color defaults to
blue for an unknown kind, the animated y starts 50 above the target,
dur is 0.6 s, and pulse is Math.random() * 6 (rnd is the stream
value). -/
def GNode.make (id label kind : String) (x y delay r rnd : ℚ) : GNode :=
  { id := id, label := label, type := kind,
    color := (lookupS NCOL kind).getD "#58a6ff",
    tx := x, ty := y, x := x, y := y - 50, r := r, cr := 0, delay := delay,
    t := 0, dur := 3/5, visible := false, hover := false, scale := 0,
    opacity := 0, pulse := rnd * 6 }

/-- The GEdge constructor (part_007 lines 110-112): color || '#58a6ff'
(the empty string is the only falsy string), dur 0.5 s. -/
def GEdge.make (src tgt : Nat) (label color : String) (delay : ℚ) : GEdge :=
  { src := src, tgt := tgt, label := label,
    color := if color = "" then "#58a6ff" else color,
    delay := delay, t := 0, dur := 1/2, visible := false, progress := 0 }

/-- Replace the first occurrence of pat in the character list by rep. -/
def replaceFirstAux (pat rep : List Char) : List Char → List Char
  | [] => []
  | c :: rest =>
    if pat.isPrefixOf (c :: rest) then rep ++ (c :: rest).drop pat.length
    else c :: replaceFirstAux pat rep rest

/-- JS String.prototype.replace with a string pattern replaces only the
first occurrence. -/
def jsReplaceFirst (s pat rep : String) : String :=
  ⟨replaceFirstAux pat.toList rep.toList s.toList⟩

/-- The characters after the last separator. -/
def lastSegAux (sep : Char) : List Char → List Char → List Char
  | [], cur => cur.reverse
  | c :: rest, cur => if c = sep then lastSegAux sep rest [] else lastSegAux sep rest (c :: cur)

/-- mod.module.split('/').pop(): the last path segment. -/
def jsLastSegment (s : String) : String := ⟨lastSegAux '/' s.toList []⟩

/-- The error a JS member access on undefined raises (reading
mod.module.split, or parent.tx through an undefined nodeMap entry). -/
def jsUndefinedError : String := "TypeError: cannot read properties of undefined"

/-- The children the builder creates for one module (part_007 lines
182-185): the first two functions and the first class, in that order. -/
def childrenOf (m : ModuleEntry) : List (String × String) :=
  ((m.functions.getD []).take 2).map (fun f => (f.name, "function"))
    ++ ((m.classes.getD []).take 1).map (fun c => (c.name, "class"))

/- ───────────────────────── Code Map: builder loops (part_007) ───────────────────────── -/

/-- First builder loop (part_007 lines 170-177): one module node per
entry, placed on a circle of radius baseR around the canvas center,
at angle 2*pi*i/N - pi/2, with stagger delay i*0.1 and radius 24; the
node map records each module id's index.  Accessing .split on an entry
without a module id throws.  The Math.random() consumed by each
constructed node is indexed by the running node count. -/
def loop1 (M : JsMath) (rand : Nat → ℚ) (N : Nat) (cx cy baseR : ℚ) :
    List ModuleEntry → Nat → List GNode → List (String × Nat) →
    Except String (List GNode × List (String × Nat))
  | [], _, ns, nm => .ok (ns, nm)
  | m :: rest, i, ns, nm =>
    match m.module with
    | none => .error jsUndefinedError
    | some mid =>
      let angle := ((i : ℚ) / (N : ℚ)) * M.pi * 2 - M.pi / 2
      let x := cx + M.cos angle * baseR
      let y := cy + M.sin angle * baseR
      let n := GNode.make mid (jsReplaceFirst (jsLastSegment mid) ".py" "") "module"
        x y ((i : ℚ) * (1/10)) 24 (rand ns.length)
      loop1 M rand N cx cy baseR rest (i + 1) (ns ++ [n]) ((mid, ns.length) :: nm)

/-- Inner loop of the second builder pass (part_007 lines 186-195): the
j-th child of module i orbits the parent seed at radius 50 and angle
2*pi*j/max(len,1) - pi/2, with delay i*0.1 + (j+1)*0.06 and radius 14;
each child also contributes a parent-child edge with empty label, color
'#30363d55' and delay i*0.1 + (j+1)*0.08. -/
def childLoop (M : JsMath) (rand : Nat → ℚ) (mid : String) (i : Nat) (ptx pty : ℚ)
    (pidx clen : Nat) :
    List (String × String) → Nat → List GNode → List (String × Nat) → List GEdge →
    List GNode × List (String × Nat) × List GEdge
  | [], _, ns, nm, es => (ns, nm, es)
  | ch :: rest, j, ns, nm, es =>
    let a := ((j : ℚ) / ((max clen 1 : Nat) : ℚ)) * M.pi * 2 - M.pi / 2
    let fx := ptx + M.cos a * 50
    let fy := pty + M.sin a * 50
    let cid := mid ++ "::" ++ ch.1
    let cn := GNode.make cid ch.1 ch.2 fx fy ((i : ℚ) * (1/10) + ((j : ℚ) + 1) * (6/100))
      14 (rand ns.length)
    childLoop M rand mid i ptx pty pidx clen rest (j + 1) (ns ++ [cn]) ((cid, ns.length) :: nm)
      (es ++ [GEdge.make pidx ns.length "" "#30363d55"
        ((i : ℚ) * (1/10) + ((j : ℚ) + 1) * (8/100))])

/-- Second builder loop (part_007 lines 180-196): for each module, look
its node up in the node map (looking up an id the map does not carry
yields undefined and the subsequent parent.tx access throws) and place
its children. -/
def loop2 (M : JsMath) (rand : Nat → ℚ) :
    List ModuleEntry → Nat → List GNode → List (String × Nat) → List GEdge →
    Except String (List GNode × List (String × Nat) × List GEdge)
  | [], _, ns, nm, es => .ok (ns, nm, es)
  | m :: rest, i, ns, nm, es =>
    match m.module with
    | none => .error jsUndefinedError
    | some mid =>
      match lookupS nm mid with
      | none => .error jsUndefinedError
      | some pidx =>
        let parent := ns.getD pidx (GNode.make "" "" "" 0 0 0 0 0)
        let ch := childrenOf m
        let out := childLoop M rand mid i parent.tx parent.ty pidx ch.length ch 0 ns nm es
        loop2 M rand rest (i + 1) out.1 out.2.1 out.2.2

/-- Cross-module edge loop (part_007 lines 260-263): each edges[] entry
whose source and target both resolve in the node map becomes one
'imports' edge with delay N*0.1 + i*0.12 (i the entry's index in the
input list); an entry that does not resolve is skipped. -/
def crossLoop (N : Nat) (nm : List (String × Nat)) :
    List EdgeEntry → Nat → List GEdge → List GEdge
  | [], _, es => es
  | e :: rest, i, es =>
    match lookupS nm e.source, lookupS nm e.target with
    | some s, some t =>
      crossLoop N nm rest (i + 1)
        (es ++ [GEdge.make s t "imports" "#39d2c0" ((N : ℚ) * (1/10) + (i : ℚ) * (12/100))])
    | _, _ => crossLoop N nm rest (i + 1) es

/- ───────────────────────── Code Map: force simulation (part_007) ───────────────────────── -/

/-- Math.max on two numbers. -/
def jsMax (a b : ℚ) : ℚ := if a ≤ b then b else a

/-- Math.min on two numbers. -/
def jsMin (a b : ℚ) : ℚ := if a ≤ b then a else b

/-- Math.max(lo, Math.min(hi, v)). -/
def clampQ (lo hi v : ℚ) : ℚ := jsMax lo (jsMin hi v)

/-- The ordered index pairs (i, j), i < j, of the repulsion double loop. -/
def pairsUpTo (n : Nat) : List (Nat × Nat) :=
  (List.range n).bind (fun i => ((List.range n).drop (i + 1)).map (fun j => (i, j)))

/-- One repulsion update (part_007 lines 207-219): inverse-square force
REPULSION/dist^2 along the pair's separation, with dist floored first
to 1 (the || 1 guard on a zero square root) and then to the minimum
separation 2.5*(r_i + r_j); the force is added to i's velocity and
subtracted from j's. -/
def repelStep (M : JsMath) (radii : List ℚ) (pos : List Vec) (vel : List Vec)
    (p : Nat × Nat) : List Vec :=
  let a := pos.getD p.1 ⟨0, 0⟩
  let b := pos.getD p.2 ⟨0, 0⟩
  let dx := a.x - b.x
  let dy := a.y - b.y
  let dist0 := M.sqrt (dx * dx + dy * dy)
  let dist1 := if dist0 = 0 then 1 else dist0
  let minDist := (radii.getD p.1 0 + radii.getD p.2 0) * (5/2)
  let dist := if dist1 < minDist then minDist else dist1
  let force := 3000 / (dist * dist)
  let fx := dx / dist * force
  let fy := dy / dist * force
  let vi := vel.getD p.1 ⟨0, 0⟩
  let vel1 := vel.set p.1 ⟨vi.x + fx, vi.y + fy⟩
  let vj := vel1.getD p.2 ⟨0, 0⟩
  vel1.set p.2 ⟨vj.x - fx, vj.y - fy⟩

/-- The repulsion phase: the double loop over all pairs. -/
def repulsionPhase (M : JsMath) (radii : List ℚ) (pos vel : List Vec) : List Vec :=
  (pairsUpTo pos.length).foldl (repelStep M radii pos) vel

/-- One spring update (part_007 lines 223-235): linear force
(dist - 70)*SPRING along the edge, pulling the endpoints together (the
source's indexOf guard cannot fire here because edges store indices). -/
def springStep (M : JsMath) (pos : List Vec) (vel : List Vec) (e : GEdge) : List Vec :=
  let a := pos.getD e.src ⟨0, 0⟩
  let b := pos.getD e.tgt ⟨0, 0⟩
  let dx := b.x - a.x
  let dy := b.y - a.y
  let dist0 := M.sqrt (dx * dx + dy * dy)
  let dist := if dist0 = 0 then 1 else dist0
  let force := (dist - 70) * (5/1000)
  let vi := vel.getD e.src ⟨0, 0⟩
  let vel1 := vel.set e.src ⟨vi.x + dx / dist * force, vi.y + dy / dist * force⟩
  let vj := vel1.getD e.tgt ⟨0, 0⟩
  vel1.set e.tgt ⟨vj.x - dx / dist * force, vj.y - dy / dist * force⟩

/-- The spring phase over the (parent-child) edge list. -/
def springPhase (M : JsMath) (pos : List Vec) (vel : List Vec) (edges : List GEdge) : List Vec :=
  edges.foldl (springStep M pos) vel

/-- The center-gravity phase (part_007 lines 238-241): every velocity
gains 0.001 of the offset to the canvas center. -/
def gravityPhase (cx cy : ℚ) (pos vel : List Vec) : List Vec :=
  List.zipWith (fun v p => Vec.mk (v.x + (cx - p.x) * (1/1000)) (v.y + (cy - p.y) * (1/1000)))
    vel pos

/-- The integration phase (part_007 lines 244-253): damp each velocity
by 0.85, advance each position by it, and clamp the position to
[margin, dimension - margin] on both axes (margin = 40).  The indexed
in-place loop is rendered as a zipWith over the equal-length position
and velocity lists. -/
def integrate (W H : ℚ) (pos vel : List Vec) : List Vec × List Vec :=
  let pairs := List.zipWith (fun p v =>
    let vx := v.x * (17/20)
    let vy := v.y * (17/20)
    (Vec.mk (clampQ 40 (W - 40) (p.x + vx)) (clampQ 40 (H - 40) (p.y + vy)),
      Vec.mk vx vy)) pos vel
  (pairs.map Prod.fst, pairs.map Prod.snd)

/-- One iteration of the force simulation (part_007 lines 205-254):
repulsion, springs, gravity, integration.  The three force phases read
the positions frozen at the iteration's start; only the radii of the
nodes are consulted. -/
def simIter (M : JsMath) (radii : List ℚ) (edges : List GEdge) (cx cy W H : ℚ)
    (st : List Vec × List Vec) : List Vec × List Vec :=
  let vel1 := repulsionPhase M radii st.1 st.2
  let vel2 := springPhase M st.1 vel1 edges
  let vel3 := gravityPhase cx cy st.1 vel2
  integrate W H st.1 vel3

/-- Writing the final simulated positions back onto the nodes
(part_007 line 257): tx/ty become the solved position, x tracks tx and
y starts 50 above ty for the entrance animation. -/
def applyPositions (ns : List GNode) (ps : List Vec) : List GNode :=
  List.zipWith (fun n p => { n with tx := p.x, ty := p.y, x := p.x, y := p.y - 50 }) ns ps

/-- forceLayout (part_007 lines 159-266): guard absent input, build the
module nodes on the seed circle, attach children and parent-child
edges, run 80 iterations of the force simulation seeded from the node
targets with zero velocities, write the solved positions back, and
append the resolvable cross-module edges. -/
def forceLayout (M : JsMath) (rand : Nat → ℚ) (graph : Option GraphInput) (W H : ℚ) :
    Except String Layout :=
  match graph with
  | none => .ok ⟨[], []⟩
  | some g =>
    match g.modules with
    | none => .ok ⟨[], []⟩
    | some mods =>
      let gEdges := g.edges.getD []
      let cx := W / 2
      let cy := H / 2
      let baseR := jsMin W H * (32/100)
      match loop1 M rand mods.length cx cy baseR mods 0 [] [] with
      | .error e => .error e
      | .ok (ns1, nm1) =>
        match loop2 M rand mods 0 ns1 nm1 [] with
        | .error e => .error e
        | .ok (ns2, nm2, pcEs) =>
          let pos0 := ns2.map (fun n => Vec.mk n.tx n.ty)
          let vel0 := ns2.map (fun _ => Vec.mk 0 0)
          let radii := ns2.map (fun n => n.r)
          let final := (simIter M radii pcEs cx cy W H)^[80] (pos0, vel0)
          let ns3 := applyPositions ns2 final.1
          let es := crossLoop mods.length nm2 gEdges 0 pcEs
          .ok ⟨ns3, es⟩

/- ───────────────────────── C5: clamp bounds lemmas ───────────────────────── -/

/-- Whether a node's solved target lies within the margins. -/
def nodeInBounds (W H : ℚ) (n : GNode) : Bool :=
  decide (40 ≤ n.tx) && decide (n.tx ≤ W - 40) && decide (40 ≤ n.ty) && decide (n.ty ≤ H - 40)

/-- Clamping lands in the interval whenever the interval is nonempty. -/
theorem clampQ_bounds (lo hi v : ℚ) (h : lo ≤ hi) :
    lo ≤ clampQ lo hi v ∧ clampQ lo hi v ≤ hi := by
  unfold clampQ jsMax jsMin
  split_ifs <;> constructor <;> linarith

/-- Every member of a zipWith is the image of members of the inputs. -/
theorem mem_zipWith_pair {α β γ : Type} (f : α → β → γ) :
    ∀ (as : List α) (bs : List β) (c : γ), c ∈ List.zipWith f as bs →
      ∃ a b, a ∈ as ∧ b ∈ bs ∧ c = f a b := by
  intro as
  induction as with
  | nil => intro bs c h; simp [List.zipWith] at h
  | cons a t ih =>
    intro bs c h
    cases bs with
    | nil => simp [List.zipWith] at h
    | cons b bs =>
      rw [List.zipWith_cons_cons] at h
      rcases List.mem_cons.mp h with rfl | h2
      · exact ⟨a, b, List.mem_cons_self _ _, List.mem_cons_self _ _, rfl⟩
      · obtain ⟨a', b', ha, hb, hc⟩ := ih bs c h2
        exact ⟨a', b', List.mem_cons_of_mem _ ha, List.mem_cons_of_mem _ hb, hc⟩

/-- Every position the integration phase emits is clamped into
bounds. -/
theorem integrate_pos_bounds (W H : ℚ) (hW : 80 ≤ W) (hH : 80 ≤ H) (pos vel : List Vec) :
    ∀ p ∈ (integrate W H pos vel).1, 40 ≤ p.x ∧ p.x ≤ W - 40 ∧ 40 ≤ p.y ∧ p.y ≤ H - 40 := by
  intro p hp
  unfold integrate at hp
  dsimp only at hp
  rw [List.mem_map] at hp
  obtain ⟨pr, hpr, rfl⟩ := hp
  obtain ⟨a, b, _, _, rfl⟩ := mem_zipWith_pair _ pos vel pr hpr
  dsimp only
  have h1 := clampQ_bounds 40 (W - 40) (a.x + b.x * (17/20)) (by linarith)
  have h2 := clampQ_bounds 40 (H - 40) (a.y + b.y * (17/20)) (by linarith)
  exact ⟨h1.1, h1.2, h2.1, h2.2⟩

/-- Every position one simulation iteration emits is in bounds. -/
theorem simIter_pos_bounds (M : JsMath) (radii : List ℚ) (edges : List GEdge)
    (cx cy W H : ℚ) (hW : 80 ≤ W) (hH : 80 ≤ H) (st : List Vec × List Vec) :
    ∀ p ∈ (simIter M radii edges cx cy W H st).1,
      40 ≤ p.x ∧ p.x ≤ W - 40 ∧ 40 ≤ p.y ∧ p.y ≤ H - 40 := by
  intro p hp
  unfold simIter at hp
  exact integrate_pos_bounds W H hW hH _ _ p hp

/-- Every position left after the fixed 80 iterations is in bounds. -/
theorem iterate80_pos_bounds (M : JsMath) (radii : List ℚ) (edges : List GEdge)
    (cx cy W H : ℚ) (hW : 80 ≤ W) (hH : 80 ≤ H) (st : List Vec × List Vec) :
    ∀ p ∈ ((simIter M radii edges cx cy W H)^[80] st).1,
      40 ≤ p.x ∧ p.x ≤ W - 40 ∧ 40 ≤ p.y ∧ p.y ≤ H - 40 := by
  rw [Function.iterate_succ_apply' (simIter M radii edges cx cy W H) 79 st]
  exact simIter_pos_bounds M radii edges cx cy W H hW hH _

/-- Membership in the final node list factors through the simulated
position list. -/
theorem mem_applyPositions (ns : List GNode) (ps : List Vec) (n : GNode)
    (hn : n ∈ applyPositions ns ps) :
    ∃ a ∈ ns, ∃ p ∈ ps, n = { a with tx := p.x, ty := p.y, x := p.x, y := p.y - 50 } := by
  obtain ⟨a, p, ha, hp, rfl⟩ := mem_zipWith_pair _ ns ps n hn
  exact ⟨a, ha, p, hp, rfl⟩

/- ───────────────────────── C5: the bounds theorem ───────────────────────── -/

/-- Core bounds fact: whenever the layout succeeds, every returned node
is clamped inside the margins. -/
theorem forceLayout_bounds_aux (M : JsMath) (rand : Nat → ℚ) (g : Option GraphInput) (W H : ℚ)
    (hW : 80 ≤ W) (hH : 80 ≤ H) (l : Layout)
    (hok : forceLayout M rand g W H = .ok l) :
    l.nodes.all (nodeInBounds W H) = true := by
  rw [List.all_eq_true]
  intro n hn
  cases g with
  | none =>
    simp only [forceLayout] at hok
    injection hok with hok
    subst hok
    exact absurd hn (List.not_mem_nil n)
  | some gg =>
    rcases hmod : gg.modules with _ | mods
    · simp only [forceLayout, hmod] at hok
      injection hok with hok
      subst hok
      exact absurd hn (List.not_mem_nil n)
    · simp only [forceLayout, hmod] at hok
      cases h1 : loop1 M rand mods.length (W/2) (H/2) (jsMin W H * (32/100)) mods 0 [] [] with
      | error e => rw [h1] at hok; exact Except.noConfusion hok
      | ok v =>
        obtain ⟨ns1, nm1⟩ := v
        rw [h1] at hok
        dsimp only at hok
        cases h2 : loop2 M rand mods 0 ns1 nm1 [] with
        | error e => rw [h2] at hok; exact Except.noConfusion hok
        | ok w =>
          obtain ⟨ns2, nm2, pcEs⟩ := w
          rw [h2] at hok
          dsimp only at hok
          injection hok with hok
          subst hok
          obtain ⟨a, ha, p, hp, rfl⟩ := mem_applyPositions _ _ n hn
          have hb := iterate80_pos_bounds M _ _ _ _ W H hW hH _ p hp
          simp only [nodeInBounds, Bool.and_eq_true, decide_eq_true_eq]
          exact ⟨⟨⟨hb.1, hb.2.1⟩, hb.2.2.1⟩, hb.2.2.2⟩

/-- C5: for every input graph, every Math implementation, every random
stream and every canvas with W, H at least 80 (so the margin interval
[40, dimension - 40] is nonempty), every node coordinate the layout
solver produces after its fixed 80 iterations lies within [40, W - 40]
on the x axis and [40, H - 40] on the y axis (checked on the solved
target position of every returned node whenever the builder
succeeds). -/
theorem C5_layout_bounds (M : JsMath) (rand : Nat → ℚ) (g : Option GraphInput) (W H : ℚ)
    (hW : 80 ≤ W) (hH : 80 ≤ H) :
    (forceLayout M rand g W H).toOption.all
      (fun l => l.nodes.all (nodeInBounds W H)) = true := by
  cases hok : forceLayout M rand g W H with
  | error e => rfl
  | ok l =>
    have h := forceLayout_bounds_aux M rand g W H hW hH l hok
    simpa [Except.toOption] using h

/- ───────────────────────── Simulation length lemmas ───────────────────────── -/

/-- One repulsion update keeps the velocity list's length. -/
theorem repelStep_length (M : JsMath) (radii : List ℚ) (pos vel : List Vec) (p : Nat × Nat) :
    (repelStep M radii pos vel p).length = vel.length := by
  unfold repelStep
  simp [List.length_set]

/-- The repulsion phase keeps the velocity list's length. -/
theorem repulsionPhase_length (M : JsMath) (radii : List ℚ) (pos vel : List Vec) :
    (repulsionPhase M radii pos vel).length = vel.length := by
  unfold repulsionPhase
  generalize pairsUpTo pos.length = l
  induction l generalizing vel with
  | nil => rfl
  | cons a t ih => rw [List.foldl_cons, ih, repelStep_length]

/-- One spring update keeps the velocity list's length. -/
theorem springStep_length (M : JsMath) (pos vel : List Vec) (e : GEdge) :
    (springStep M pos vel e).length = vel.length := by
  unfold springStep
  simp [List.length_set]

/-- The spring phase keeps the velocity list's length. -/
theorem springPhase_length (M : JsMath) (pos vel : List Vec) (edges : List GEdge) :
    (springPhase M pos vel edges).length = vel.length := by
  unfold springPhase
  induction edges generalizing vel with
  | nil => rfl
  | cons e t ih => rw [List.foldl_cons, ih, springStep_length]

/-- One simulation iteration preserves matching position/velocity list
lengths. -/
theorem simIter_lengths (M : JsMath) (radii : List ℚ) (edges : List GEdge) (cx cy W H : ℚ)
    (st : List Vec × List Vec) (n : Nat) (h1 : st.1.length = n) (h2 : st.2.length = n) :
    (simIter M radii edges cx cy W H st).1.length = n ∧
    (simIter M radii edges cx cy W H st).2.length = n := by
  unfold simIter integrate gravityPhase
  constructor <;>
    simp [List.length_zipWith, springPhase_length, repulsionPhase_length, h1, h2]

/-- The 80 simulation iterations preserve matching lengths. -/
theorem iterate_sim_lengths (M : JsMath) (radii : List ℚ) (edges : List GEdge) (cx cy W H : ℚ)
    (k : Nat) (st : List Vec × List Vec) (n : Nat) (h1 : st.1.length = n) (h2 : st.2.length = n) :
    ((simIter M radii edges cx cy W H)^[k] st).1.length = n ∧
    ((simIter M radii edges cx cy W H)^[k] st).2.length = n := by
  induction k generalizing st with
  | zero => exact ⟨h1, h2⟩
  | succ k ih =>
    rw [Function.iterate_succ_apply]
    exact ih _ (simIter_lengths M radii edges cx cy W H st n h1 h2).1
      (simIter_lengths M radii edges cx cy W H st n h1 h2).2

/-- Writing positions back onto the nodes leaves any field the update
does not touch unchanged, as a list map, when the position list covers
the node list. -/
theorem applyPositions_map {α : Type} (f : GNode → α)
    (hf : ∀ (n : GNode) (p : Vec), f { n with tx := p.x, ty := p.y, x := p.x, y := p.y - 50 } = f n)
    (ns : List GNode) (ps : List Vec) (hlen : ps.length = ns.length) :
    (applyPositions ns ps).map f = ns.map f := by
  unfold applyPositions
  induction ns generalizing ps with
  | nil => simp
  | cons a t ih =>
    cases ps with
    | nil => simp at hlen
    | cons p q =>
      rw [List.zipWith_cons_cons, List.map_cons, List.map_cons, hf,
        ih q (by simpa using hlen)]

/- ───────────────────────── Builder spec formulas and id sets ───────────────────────── -/

/-- The module ids the input names (the key the builder reads). -/
def moduleIds (mods : List ModuleEntry) : List String :=
  mods.map (fun m => m.module.getD "")

/-- The child node ids one module contributes. -/
def childIdsOf (m : ModuleEntry) : List String :=
  (childrenOf m).map (fun c => (m.module.getD "") ++ "::" ++ c.1)

/-- The child node ids of all modules. -/
def childIds (mods : List ModuleEntry) : List String := mods.bind childIdsOf

/-- All node ids the builder creates: module ids and child ids. -/
def allIds (mods : List ModuleEntry) : List String :=
  mods.bind (fun m => (m.module.getD "") :: childIdsOf m)

/-- The number of parent-child edges the builder creates. -/
def pcCount (mods : List ModuleEntry) : Nat :=
  (mods.map (fun m => (childrenOf m).length)).sum

/-- Spec formula (claim C8): the stagger delays of consecutive module
nodes starting at module index i: delay of module i is i * 0.1 s. -/
def specModuleSeq (i : Nat) : Nat → List ℚ
  | 0 => []
  | count + 1 => ((i : ℚ) * (1/10)) :: specModuleSeq (i + 1) count

/-- Spec formula (claim C8): the module-node delays of the whole input. -/
def specModuleDelays (N : Nat) : List ℚ := specModuleSeq 0 N

/-- Spec formula (claim C8): delays of consecutive child nodes of
module i starting at child index j: the j-th child of module i has
delay i * 0.1 + (j + 1) * 0.06 s. -/
def specChildSeq (i : Nat) : Nat → Nat → List ℚ
  | _, 0 => []
  | j, count + 1 =>
    ((i : ℚ) * (1/10) + ((j : ℚ) + 1) * (6/100)) :: specChildSeq i (j + 1) count

/-- Spec formula (claim C8): all child-node delays, module by module. -/
def specChildDelaysFrom : Nat → List ModuleEntry → List ℚ
  | _, [] => []
  | i, m :: rest => specChildSeq i 0 (childrenOf m).length ++ specChildDelaysFrom (i + 1) rest

/-- Spec formula (claim C8): the child-node delays of the whole input. -/
def specChildDelays (mods : List ModuleEntry) : List ℚ := specChildDelaysFrom 0 mods

/-- Amended formula (claim C8): delays of consecutive parent-child
edges of module i: the edge to the j-th child has delay
i * 0.1 + (j + 1) * 0.08 s, i.e. the child node's delay plus
(j + 1) * 0.02 s (the claim said plus a flat 0.02 s). -/
def specPcSeq (i : Nat) : Nat → Nat → List ℚ
  | _, 0 => []
  | j, count + 1 =>
    ((i : ℚ) * (1/10) + ((j : ℚ) + 1) * (8/100)) :: specPcSeq i (j + 1) count

/-- Amended formula (claim C8): all parent-child edge delays. -/
def specPcDelaysFrom : Nat → List ModuleEntry → List ℚ
  | _, [] => []
  | i, m :: rest => specPcSeq i 0 (childrenOf m).length ++ specPcDelaysFrom (i + 1) rest

/-- Amended formula (claim C8): the parent-child edge delays of the
whole input. -/
def specPcDelays (mods : List ModuleEntry) : List ℚ := specPcDelaysFrom 0 mods

/-- Spec formula (claim C8): delays of consecutive cross-module edges
starting at entry index i: the i-th cross-module edge has delay
N * 0.1 + i * 0.12 s. -/
def specCrossSeq (N : Nat) : Nat → Nat → List ℚ
  | _, 0 => []
  | i, count + 1 =>
    ((N : ℚ) * (1/10) + (i : ℚ) * (12/100)) :: specCrossSeq N (i + 1) count

/-- Spec formula (claim C8): the cross-module edge delays when every
entry resolves. -/
def specCrossDelays (N : Nat) (count : Nat) : List ℚ := specCrossSeq N 0 count

/- ───────────────────────── Builder loop characterizations ───────────────────────── -/

/-- lookupS succeeds exactly on the stored keys. -/
theorem lookupS_isSome_iff {α : Type} (nm : List (String × α)) (a : String) :
    (lookupS nm a).isSome = true ↔ a ∈ nm.map Prod.fst := by
  induction nm with
  | nil => simp [lookupS]
  | cons kv t ih =>
    by_cases h : kv.1 = a
    · simp [lookupS, h]
    · simp only [lookupS, if_neg h, List.map_cons, List.mem_cons, ih]
      constructor
      · exact Or.inr
      · rintro (rfl | hm)
        · exact absurd rfl h
        · exact hm

/-- loop1 succeeds on fully named input and its nodes carry the
claimed module delays. -/
theorem loop1_delays (M : JsMath) (rand : Nat → ℚ) (N : Nat) (cx cy baseR : ℚ) :
    ∀ (rest : List ModuleEntry) (i : Nat) (ns : List GNode) (nm : List (String × Nat)),
      (∀ m ∈ rest, m.module.isSome = true) →
      Except.map (fun r => r.1.map GNode.delay) (loop1 M rand N cx cy baseR rest i ns nm)
        = .ok (ns.map GNode.delay ++ specModuleSeq i rest.length) := by
  intro rest
  induction rest with
  | nil => intro i ns nm _; simp [loop1, specModuleSeq, Except.map]
  | cons m t ih =>
    intro i ns nm h
    obtain ⟨mid, hmid⟩ := Option.isSome_iff_exists.mp (h m (List.mem_cons_self _ _))
    simp only [loop1, hmid]
    rw [ih]
    · simp [GNode.make, specModuleSeq, List.length_cons]
    · exact fun u hu => h u (List.mem_cons_of_mem _ hu)

/-- loop1's node map records exactly the module ids (latest first) on
top of the incoming map. -/
theorem loop1_keys (M : JsMath) (rand : Nat → ℚ) (N : Nat) (cx cy baseR : ℚ) :
    ∀ (rest : List ModuleEntry) (i : Nat) (ns : List GNode) (nm : List (String × Nat)),
      (∀ m ∈ rest, m.module.isSome = true) →
      Except.map (fun r => r.2.map Prod.fst) (loop1 M rand N cx cy baseR rest i ns nm)
        = .ok ((moduleIds rest).reverse ++ nm.map Prod.fst) := by
  intro rest
  induction rest with
  | nil => intro i ns nm _; simp [loop1, moduleIds, Except.map]
  | cons m t ih =>
    intro i ns nm h
    obtain ⟨mid, hmid⟩ := Option.isSome_iff_exists.mp (h m (List.mem_cons_self _ _))
    simp only [loop1, hmid]
    rw [ih]
    · simp [moduleIds, hmid]
    · exact fun u hu => h u (List.mem_cons_of_mem _ hu)

/-- The child loop's nodes carry the claimed child delays. -/
theorem childLoop_nodes_delay (M : JsMath) (rand : Nat → ℚ) (mid : String) (i : Nat)
    (ptx pty : ℚ) (pidx clen : Nat) :
    ∀ (ch : List (String × String)) (j : Nat) (ns : List GNode) (nm : List (String × Nat))
      (es : List GEdge),
      (childLoop M rand mid i ptx pty pidx clen ch j ns nm es).1.map GNode.delay
        = ns.map GNode.delay ++ specChildSeq i j ch.length := by
  intro ch
  induction ch with
  | nil => intro j ns nm es; simp [childLoop, specChildSeq]
  | cons c t ih =>
    intro j ns nm es
    simp only [childLoop]
    rw [ih]
    simp [GNode.make, specChildSeq, List.length_cons]

/-- The child loop's edges carry the amended parent-child delays
(i * 0.1 + (j + 1) * 0.08). -/
theorem childLoop_edges_delay (M : JsMath) (rand : Nat → ℚ) (mid : String) (i : Nat)
    (ptx pty : ℚ) (pidx clen : Nat) :
    ∀ (ch : List (String × String)) (j : Nat) (ns : List GNode) (nm : List (String × Nat))
      (es : List GEdge),
      (childLoop M rand mid i ptx pty pidx clen ch j ns nm es).2.2.map GEdge.delay
        = es.map GEdge.delay ++ specPcSeq i j ch.length := by
  intro ch
  induction ch with
  | nil => intro j ns nm es; simp [childLoop, specPcSeq]
  | cons c t ih =>
    intro j ns nm es
    simp only [childLoop]
    rw [ih]
    simp [GEdge.make, specPcSeq, List.length_cons]

/-- The child loop's node map records exactly this module's child ids
(latest first) on top of the incoming map. -/
theorem childLoop_keys (M : JsMath) (rand : Nat → ℚ) (mid : String) (i : Nat)
    (ptx pty : ℚ) (pidx clen : Nat) :
    ∀ (ch : List (String × String)) (j : Nat) (ns : List GNode) (nm : List (String × Nat))
      (es : List GEdge),
      (childLoop M rand mid i ptx pty pidx clen ch j ns nm es).2.1.map Prod.fst
        = (ch.map (fun c => mid ++ "::" ++ c.1)).reverse ++ nm.map Prod.fst := by
  intro ch
  induction ch with
  | nil => intro j ns nm es; simp [childLoop]
  | cons c t ih =>
    intro j ns nm es
    simp only [childLoop]
    rw [ih]
    simp

/-- loop2 succeeds when every module is named and already mapped, its
nodes gaining exactly the claimed child delays. -/
theorem loop2_nodes_delay (M : JsMath) (rand : Nat → ℚ) :
    ∀ (rest : List ModuleEntry) (i : Nat) (ns : List GNode) (nm : List (String × Nat))
      (es : List GEdge),
      (∀ m ∈ rest, m.module.isSome = true) →
      (∀ m ∈ rest, (m.module.getD "") ∈ nm.map Prod.fst) →
      Except.map (fun r => r.1.map GNode.delay) (loop2 M rand rest i ns nm es)
        = .ok (ns.map GNode.delay ++ specChildDelaysFrom i rest) := by
  intro rest
  induction rest with
  | nil => intro i ns nm es _ _; simp [loop2, specChildDelaysFrom, Except.map]
  | cons m t ih =>
    intro i ns nm es h hmem
    obtain ⟨mid, hmid⟩ := Option.isSome_iff_exists.mp (h m (List.mem_cons_self _ _))
    have hinmap : mid ∈ nm.map Prod.fst := by
      have := hmem m (List.mem_cons_self _ _)
      rwa [hmid, Option.getD_some] at this
    obtain ⟨pidx, hpidx⟩ :=
      Option.isSome_iff_exists.mp ((lookupS_isSome_iff nm mid).mpr hinmap)
    simp only [loop2, hmid, hpidx]
    rw [ih]
    · rw [childLoop_nodes_delay]
      simp [specChildDelaysFrom, childrenOf]
    · exact fun u hu => h u (List.mem_cons_of_mem _ hu)
    · intro u hu
      rw [childLoop_keys]
      exact List.mem_append_right _ (hmem u (List.mem_cons_of_mem _ hu))

/-- loop2's edges are exactly the parent-child edges with the amended
delays (module delay plus (childIndex + 1) * 0.08). -/
theorem loop2_edges_delay (M : JsMath) (rand : Nat → ℚ) :
    ∀ (rest : List ModuleEntry) (i : Nat) (ns : List GNode) (nm : List (String × Nat))
      (es : List GEdge),
      (∀ m ∈ rest, m.module.isSome = true) →
      (∀ m ∈ rest, (m.module.getD "") ∈ nm.map Prod.fst) →
      Except.map (fun r => r.2.2.map GEdge.delay) (loop2 M rand rest i ns nm es)
        = .ok (es.map GEdge.delay ++ specPcDelaysFrom i rest) := by
  intro rest
  induction rest with
  | nil => intro i ns nm es _ _; simp [loop2, specPcDelaysFrom, Except.map]
  | cons m t ih =>
    intro i ns nm es h hmem
    obtain ⟨mid, hmid⟩ := Option.isSome_iff_exists.mp (h m (List.mem_cons_self _ _))
    have hinmap : mid ∈ nm.map Prod.fst := by
      have := hmem m (List.mem_cons_self _ _)
      rwa [hmid, Option.getD_some] at this
    obtain ⟨pidx, hpidx⟩ :=
      Option.isSome_iff_exists.mp ((lookupS_isSome_iff nm mid).mpr hinmap)
    simp only [loop2, hmid, hpidx]
    rw [ih]
    · rw [childLoop_edges_delay]
      simp [specPcDelaysFrom, childrenOf]
    · exact fun u hu => h u (List.mem_cons_of_mem _ hu)
    · intro u hu
      rw [childLoop_keys]
      exact List.mem_append_right _ (hmem u (List.mem_cons_of_mem _ hu))

/-- loop2's node map adds exactly the child ids (latest first). -/
theorem loop2_keys (M : JsMath) (rand : Nat → ℚ) :
    ∀ (rest : List ModuleEntry) (i : Nat) (ns : List GNode) (nm : List (String × Nat))
      (es : List GEdge),
      (∀ m ∈ rest, m.module.isSome = true) →
      (∀ m ∈ rest, (m.module.getD "") ∈ nm.map Prod.fst) →
      Except.map (fun r => r.2.1.map Prod.fst) (loop2 M rand rest i ns nm es)
        = .ok ((childIds rest).reverse ++ nm.map Prod.fst) := by
  intro rest
  induction rest with
  | nil => intro i ns nm es _ _; simp [loop2, childIds, Except.map]
  | cons m t ih =>
    intro i ns nm es h hmem
    obtain ⟨mid, hmid⟩ := Option.isSome_iff_exists.mp (h m (List.mem_cons_self _ _))
    have hinmap : mid ∈ nm.map Prod.fst := by
      have := hmem m (List.mem_cons_self _ _)
      rwa [hmid, Option.getD_some] at this
    obtain ⟨pidx, hpidx⟩ :=
      Option.isSome_iff_exists.mp ((lookupS_isSome_iff nm mid).mpr hinmap)
    simp only [loop2, hmid, hpidx]
    rw [ih]
    · rw [childLoop_keys]
      simp [childIds, childIdsOf, hmid]
    · exact fun u hu => h u (List.mem_cons_of_mem _ hu)
    · intro u hu
      rw [childLoop_keys]
      exact List.mem_append_right _ (hmem u (List.mem_cons_of_mem _ hu))

/-- The cross loop keeps the claimed delays when every entry resolves. -/
theorem crossLoop_delays_known (N : Nat) (nm : List (String × Nat)) :
    ∀ (gE : List EdgeEntry) (i : Nat) (es : List GEdge),
      (∀ e ∈ gE, (lookupS nm e.source).isSome = true ∧ (lookupS nm e.target).isSome = true) →
      (crossLoop N nm gE i es).map GEdge.delay
        = es.map GEdge.delay ++ specCrossSeq N i gE.length := by
  intro gE
  induction gE with
  | nil => intro i es _; simp [crossLoop, specCrossSeq]
  | cons e t ih =>
    intro i es h
    obtain ⟨hs, ht⟩ := h e (List.mem_cons_self _ _)
    obtain ⟨si, hsi⟩ := Option.isSome_iff_exists.mp hs
    obtain ⟨ti, hti⟩ := Option.isSome_iff_exists.mp ht
    simp only [crossLoop, hsi, hti]
    rw [ih]
    · simp [GEdge.make, specCrossSeq, List.length_cons]
    · exact fun u hu => h u (List.mem_cons_of_mem _ hu)

/-- The cross loop appends exactly one edge per entry both of whose
endpoints resolve in the node map, and drops the rest silently. -/
theorem crossLoop_length (N : Nat) (nm : List (String × Nat)) :
    ∀ (gE : List EdgeEntry) (i : Nat) (es : List GEdge),
      (crossLoop N nm gE i es).length = es.length +
        (gE.filter (fun e =>
          (lookupS nm e.source).isSome && (lookupS nm e.target).isSome)).length := by
  intro gE
  induction gE with
  | nil => intro i es; simp [crossLoop]
  | cons e t ih =>
    intro i es
    cases hs : lookupS nm e.source with
    | none =>
      simp only [crossLoop, hs]
      rw [ih]
      simp [List.filter_cons, hs]
    | some si =>
      cases ht : lookupS nm e.target with
      | none =>
        simp only [crossLoop, hs, ht]
        rw [ih]
        simp [List.filter_cons, hs, ht]
      | some ti =>
        simp only [crossLoop, hs, ht]
        rw [ih]
        simp [List.filter_cons, hs, ht]
        omega

/-- A cross loop over an empty node map drops every entry. -/
theorem crossLoop_nil_nm (N : Nat) :
    ∀ (gE : List EdgeEntry) (i : Nat) (es : List GEdge),
      crossLoop N [] gE i es = es := by
  intro gE
  induction gE with
  | nil => intro i es; rfl
  | cons e t ih =>
    intro i es
    simp only [crossLoop, lookupS]
    exact ih (i + 1) es

/-- Destructuring a successful Except.map. -/
theorem exceptMap_ok_elim {α β : Type} {f : α → β} {x : Except String α} {b : β}
    (h : Except.map f x = .ok b) : ∃ a, x = .ok a ∧ f a = b := by
  cases x with
  | error e => simp [Except.map] at h
  | ok a =>
    refine ⟨a, rfl, ?_⟩
    simpa [Except.map] using h

/-- allIds splits into module ids and child ids. -/
theorem mem_allIds (mods : List ModuleEntry) (a : String) :
    a ∈ allIds mods ↔ a ∈ moduleIds mods ∨ a ∈ childIds mods := by
  simp only [allIds, moduleIds, childIds, List.mem_bind, List.mem_map, List.mem_cons]
  constructor
  · rintro ⟨m, hm, rfl | h⟩
    · exact Or.inl ⟨m, hm, rfl⟩
    · exact Or.inr ⟨m, hm, h⟩
  · rintro (⟨m, hm, rfl⟩ | ⟨m, hm, h⟩)
    · exact ⟨m, hm, Or.inl rfl⟩
    · exact ⟨m, hm, Or.inr h⟩

/-- Length of the parent-child delay formula for one module. -/
theorem specPcSeq_length (i : Nat) : ∀ (n j : Nat), (specPcSeq i j n).length = n := by
  intro n
  induction n with
  | zero => intro j; rfl
  | succ k ih => intro j; simp [specPcSeq, ih]

/-- Length of the parent-child delay formula: one edge per child. -/
theorem specPcDelaysFrom_length : ∀ (mods : List ModuleEntry) (i : Nat),
    (specPcDelaysFrom i mods).length = pcCount mods := by
  intro mods
  induction mods with
  | nil => intro i; rfl
  | cons m t ih =>
    intro i
    simp [specPcDelaysFrom, specPcSeq_length, ih, pcCount]

/- ───────────────────────── Empty input lemmas ───────────────────────── -/

/-- Absent analysis result: empty layout, no error. -/
theorem forceLayout_none (M : JsMath) (rand : Nat → ℚ) (W H : ℚ) :
    forceLayout M rand none W H = .ok ⟨[], []⟩ := rfl

/-- Analysis result without a modules field: empty layout, no error. -/
theorem forceLayout_no_modules (M : JsMath) (rand : Nat → ℚ) (es : Option (List EdgeEntry))
    (W H : ℚ) : forceLayout M rand (some ⟨none, es⟩) W H = .ok ⟨[], []⟩ := rfl

/-- Empty modules list: empty layout (every edge entry is dropped
because the node map stays empty), no error. -/
theorem forceLayout_nil_modules (M : JsMath) (rand : Nat → ℚ) (es : Option (List EdgeEntry))
    (W H : ℚ) : forceLayout M rand (some ⟨some [], es⟩) W H = .ok ⟨[], []⟩ := by
  simp only [forceLayout, loop1, loop2]
  rw [crossLoop_nil_nm]
  rfl

/-- Reduction of forceLayout to its components once both builder loops
succeed. -/
theorem forceLayout_main (M : JsMath) (rand : Nat → ℚ) (mods : List ModuleEntry)
    (gEs : List EdgeEntry) (W H : ℚ) (ns1 : List GNode) (nm1 : List (String × Nat))
    (ns2 : List GNode) (nm2 : List (String × Nat)) (pcEs : List GEdge)
    (h1 : loop1 M rand mods.length (W/2) (H/2) (jsMin W H * (32/100)) mods 0 [] []
      = .ok (ns1, nm1))
    (h2 : loop2 M rand mods 0 ns1 nm1 [] = .ok (ns2, nm2, pcEs)) :
    forceLayout M rand (some ⟨some mods, some gEs⟩) W H = .ok
      ⟨applyPositions ns2 ((simIter M (ns2.map (fun n => n.r)) pcEs (W/2) (H/2) W H)^[80]
          (ns2.map (fun n => Vec.mk n.tx n.ty), ns2.map (fun _ => Vec.mk 0 0))).1,
        crossLoop mods.length nm2 gEs 0 pcEs⟩ := by
  simp only [forceLayout, h1, h2, Option.getD_some]

/-- The key set of the final node map is exactly allIds. -/
theorem forceLayout_keys (M : JsMath) (rand : Nat → ℚ) (mods : List ModuleEntry) (W H : ℚ)
    (hnamed : ∀ m ∈ mods, m.module.isSome = true) :
    ∃ ns1 nm1 ns2 nm2 pcEs,
      loop1 M rand mods.length (W/2) (H/2) (jsMin W H * (32/100)) mods 0 [] [] = .ok (ns1, nm1) ∧
      loop2 M rand mods 0 ns1 nm1 [] = .ok (ns2, nm2, pcEs) ∧
      (∀ m ∈ mods, (m.module.getD "") ∈ nm1.map Prod.fst) ∧
      (∀ a, a ∈ nm2.map Prod.fst ↔ a ∈ allIds mods) ∧
      pcEs.map GEdge.delay = specPcDelaysFrom 0 mods ∧
      ns2.map GNode.delay = ns1.map GNode.delay ++ specChildDelaysFrom 0 mods ∧
      ns1.map GNode.delay = specModuleSeq 0 mods.length := by
  obtain ⟨⟨ns1, nm1⟩, h1, hk1⟩ := exceptMap_ok_elim
    (loop1_keys M rand mods.length (W/2) (H/2) (jsMin W H * (32/100)) mods 0 [] [] hnamed)
  obtain ⟨⟨ns1', nm1'⟩, h1', hd1⟩ := exceptMap_ok_elim
    (loop1_delays M rand mods.length (W/2) (H/2) (jsMin W H * (32/100)) mods 0 [] [] hnamed)
  rw [h1] at h1'
  injection h1' with hh
  cases hh
  have hmem1 : ∀ m ∈ mods, (m.module.getD "") ∈ nm1.map Prod.fst := by
    intro m hm
    rw [hk1]
    simp only [moduleIds, List.map_nil, List.append_nil, List.mem_reverse, List.mem_map]
    exact ⟨m, hm, rfl⟩
  obtain ⟨⟨ns2, nm2, pcEs⟩, h2, hk2⟩ := exceptMap_ok_elim
    (loop2_keys M rand mods 0 ns1 nm1 [] hnamed hmem1)
  obtain ⟨⟨ns2', nm2', pcEs'⟩, h2', he2⟩ := exceptMap_ok_elim
    (loop2_edges_delay M rand mods 0 ns1 nm1 [] hnamed hmem1)
  rw [h2] at h2'
  injection h2' with hh2
  cases hh2
  obtain ⟨⟨ns2', nm2', pcEs'⟩, h2'', hd2⟩ := exceptMap_ok_elim
    (loop2_nodes_delay M rand mods 0 ns1 nm1 [] hnamed hmem1)
  rw [h2] at h2''
  injection h2'' with hh3
  cases hh3
  refine ⟨ns1, nm1, ns2, nm2, pcEs, h1, h2, hmem1, ?_, ?_, ?_, ?_⟩
  · intro a
    rw [hk2, hk1]
    simp only [List.mem_append, List.mem_reverse, List.append_nil, mem_allIds]
    tauto
  · simpa using he2
  · exact hd2
  · simpa using hd1

/- ───────────────────────── C9: edge dropping ───────────────────────── -/

/-- Concrete constant Math used by the counterexamples and witnesses:
every abstracted primitive returns 0. -/
def mathZero : JsMath := ⟨fun _ => 0, fun _ => 0, fun _ => 0, 0⟩

/-- Concrete constant random stream used by the counterexamples and
witnesses. -/
def randZero : Nat → ℚ := fun _ => 0

/-- The child loop's edges all carry the empty label. -/
theorem childLoop_edges_label (M : JsMath) (rand : Nat → ℚ) (mid : String) (i : Nat)
    (ptx pty : ℚ) (pidx clen : Nat) :
    ∀ (ch : List (String × String)) (j : Nat) (ns : List GNode) (nm : List (String × Nat))
      (es : List GEdge),
      (childLoop M rand mid i ptx pty pidx clen ch j ns nm es).2.2.map GEdge.label
        = es.map GEdge.label ++ List.replicate ch.length "" := by
  intro ch
  induction ch with
  | nil => intro j ns nm es; simp [childLoop]
  | cons c t ih =>
    intro j ns nm es
    simp only [childLoop]
    rw [ih]
    simp [GEdge.make, List.replicate_succ]

/-- loop2's edges (the parent-child edges) all carry the empty label. -/
theorem loop2_edges_label (M : JsMath) (rand : Nat → ℚ) :
    ∀ (rest : List ModuleEntry) (i : Nat) (ns : List GNode) (nm : List (String × Nat))
      (es : List GEdge),
      (∀ m ∈ rest, m.module.isSome = true) →
      (∀ m ∈ rest, (m.module.getD "") ∈ nm.map Prod.fst) →
      Except.map (fun r => r.2.2.map GEdge.label) (loop2 M rand rest i ns nm es)
        = .ok (es.map GEdge.label ++ List.replicate (pcCount rest) "") := by
  intro rest
  induction rest with
  | nil => intro i ns nm es _ _; simp [loop2, pcCount, Except.map]
  | cons m t ih =>
    intro i ns nm es h hmem
    obtain ⟨mid, hmid⟩ := Option.isSome_iff_exists.mp (h m (List.mem_cons_self _ _))
    have hinmap : mid ∈ nm.map Prod.fst := by
      have := hmem m (List.mem_cons_self _ _)
      rwa [hmid, Option.getD_some] at this
    obtain ⟨pidx, hpidx⟩ :=
      Option.isSome_iff_exists.mp ((lookupS_isSome_iff nm mid).mpr hinmap)
    simp only [loop2, hmid, hpidx]
    rw [ih]
    · rw [childLoop_edges_label]
      have hsplit : pcCount (m :: t) = (childrenOf m).length + pcCount t := by
        simp [pcCount]
      rw [hsplit, List.replicate_add, ← List.append_assoc]
    · exact fun u hu => h u (List.mem_cons_of_mem _ hu)
    · intro u hu
      rw [childLoop_keys]
      exact List.mem_append_right _ (hmem u (List.mem_cons_of_mem _ hu))

/-- Every cross edge carries the 'imports' label, one per resolving
entry. -/
theorem crossLoop_labels (N : Nat) (nm : List (String × Nat)) :
    ∀ (gE : List EdgeEntry) (i : Nat) (es : List GEdge),
      (crossLoop N nm gE i es).map GEdge.label = es.map GEdge.label ++
        List.replicate (gE.filter (fun e =>
          (lookupS nm e.source).isSome && (lookupS nm e.target).isSome)).length "imports" := by
  intro gE
  induction gE with
  | nil => intro i es; simp [crossLoop]
  | cons e t ih =>
    intro i es
    cases hs : lookupS nm e.source with
    | none =>
      simp only [crossLoop, hs]
      rw [ih]
      simp [List.filter_cons, hs]
    | some si =>
      cases ht : lookupS nm e.target with
      | none =>
        simp only [crossLoop, hs, ht]
        rw [ih]
        simp [List.filter_cons, hs, ht]
      | some ti =>
        simp only [crossLoop, hs, ht]
        rw [ih]
        simp [List.filter_cons, hs, ht, GEdge.make, List.replicate_succ, List.replicate_add]

/-- The labels of the final edge list: empty labels for the
parent-child edges, then 'imports' once per resolving entry. -/
theorem forceLayout_edge_labels (M : JsMath) (rand : Nat → ℚ) (mods : List ModuleEntry)
    (gEs : List EdgeEntry) (W H : ℚ) (hnamed : ∀ m ∈ mods, m.module.isSome = true) :
    Except.map (fun l => l.edges.map GEdge.label)
      (forceLayout M rand (some ⟨some mods, some gEs⟩) W H)
      = .ok (List.replicate (pcCount mods) "" ++
          List.replicate ((gEs.filter (fun e =>
            decide (e.source ∈ allIds mods) && decide (e.target ∈ allIds mods))).length)
          "imports") := by
  obtain ⟨ns1, nm1, ns2, nm2, pcEs, h1, h2, hmem1, hkeys, hpc, hd2, hd1⟩ :=
    forceLayout_keys M rand mods W H hnamed
  rw [forceLayout_main M rand mods gEs W H ns1 nm1 ns2 nm2 pcEs h1 h2]
  simp only [Except.map]
  obtain ⟨⟨ns2', nm2', pcEs'⟩, h2', hlab⟩ := exceptMap_ok_elim
    (loop2_edges_label M rand mods 0 ns1 nm1 [] hnamed hmem1)
  rw [h2] at h2'
  injection h2' with hh
  cases hh
  have hlook : ∀ a, (lookupS nm2 a).isSome = decide (a ∈ allIds mods) := by
    intro a
    cases hb : (lookupS nm2 a).isSome with
    | false =>
      symm
      rw [decide_eq_false_iff_not]
      intro hmem
      rw [← hkeys a, ← lookupS_isSome_iff] at hmem
      rw [hb] at hmem
      cases hmem
    | true =>
      symm
      rw [decide_eq_true_eq]
      exact (hkeys a).mp ((lookupS_isSome_iff nm2 a).mp hb)
  rw [crossLoop_labels]
  have hfilter : gEs.filter (fun e =>
        (lookupS nm2 e.source).isSome && (lookupS nm2 e.target).isSome)
      = gEs.filter (fun e =>
        decide (e.source ∈ allIds mods) && decide (e.target ∈ allIds mods)) := by
    apply List.filter_congr
    intro e _
    rw [hlook, hlook]
  rw [hfilter]
  congr 1
  simpa using hlab

/-- C9 counterexample: an edges[] entry naming a child node id
("a.py::f" is a function node, not a module node) is NOT dropped: the
builder accepts any id in its node map.  On one module a.py with
function f and the edge a.py::f to a.py, the output carries the
parent-child edge AND a cross-module 'imports' edge; under the claim as
stated (drop every entry whose endpoint is not a known module node) the
edge list would carry the parent-child edge only. -/
theorem C9_member_edge_cex :
    Except.map (fun l => l.edges.map GEdge.label)
      (forceLayout mathZero randZero
        (some ⟨some [⟨some "a.py", some "a.py", some [⟨"f"⟩], some []⟩],
               some [⟨"a.py::f", "a.py"⟩]⟩) 800 600)
      = .ok ["", "imports"] ∧ (["", "imports"] : List String) ≠ [""] := by
  constructor
  · rw [forceLayout_edge_labels mathZero randZero
      [⟨some "a.py", some "a.py", some [⟨"f"⟩], some []⟩] [⟨"a.py::f", "a.py"⟩] 800 600
      (by decide)]
    rfl
  · decide

/-- C9 (amended): the builder maps empty or absent modules input to
empty node and edge lists without error, and every edges[] entry whose
source or target does not name a known node id (module or child member
node: the builder resolves endpoints in its full node map) is dropped
silently: it produces no edge, does not abort layout, and raises no
error; entries whose endpoints both resolve each produce one edge. -/
theorem C9_edge_handling_amended :
    (∀ (M : JsMath) (rand : Nat → ℚ) (W H : ℚ),
      forceLayout M rand none W H = .ok ⟨[], []⟩) ∧
    (∀ (M : JsMath) (rand : Nat → ℚ) (es : Option (List EdgeEntry)) (W H : ℚ),
      forceLayout M rand (some ⟨none, es⟩) W H = .ok ⟨[], []⟩) ∧
    (∀ (M : JsMath) (rand : Nat → ℚ) (es : Option (List EdgeEntry)) (W H : ℚ),
      forceLayout M rand (some ⟨some [], es⟩) W H = .ok ⟨[], []⟩) ∧
    (∀ (M : JsMath) (rand : Nat → ℚ) (mods : List ModuleEntry) (gEs : List EdgeEntry)
      (W H : ℚ), (∀ m ∈ mods, m.module.isSome = true) →
      Except.map (fun l => l.edges.length)
        (forceLayout M rand (some ⟨some mods, some gEs⟩) W H)
        = .ok (pcCount mods + (gEs.filter (fun e =>
            decide (e.source ∈ allIds mods) && decide (e.target ∈ allIds mods))).length)) := by
  refine ⟨forceLayout_none, forceLayout_no_modules, forceLayout_nil_modules, ?_⟩
  intro M rand mods gEs W H hnamed
  obtain ⟨ns1, nm1, ns2, nm2, pcEs, h1, h2, hmem1, hkeys, hpc, hd2, hd1⟩ :=
    forceLayout_keys M rand mods W H hnamed
  rw [forceLayout_main M rand mods gEs W H ns1 nm1 ns2 nm2 pcEs h1 h2]
  simp only [Except.map]
  have hlenpc : pcEs.length = pcCount mods := by
    have := congrArg List.length hpc
    simpa [specPcDelaysFrom_length] using this
  have hlook : ∀ a, (lookupS nm2 a).isSome = decide (a ∈ allIds mods) := by
    intro a
    cases hb : (lookupS nm2 a).isSome with
    | false =>
      symm
      rw [decide_eq_false_iff_not]
      intro hmem
      rw [← hkeys a, ← lookupS_isSome_iff] at hmem
      rw [hb] at hmem
      cases hmem
    | true =>
      symm
      rw [decide_eq_true_eq]
      exact (hkeys a).mp ((lookupS_isSome_iff nm2 a).mp hb)
  rw [crossLoop_length, hlenpc]
  have hfilter : gEs.filter (fun e =>
        (lookupS nm2 e.source).isSome && (lookupS nm2 e.target).isSome)
      = gEs.filter (fun e =>
        decide (e.source ∈ allIds mods) && decide (e.target ∈ allIds mods)) := by
    apply List.filter_congr
    intro e _
    rw [hlook, hlook]
  rw [hfilter]

/- ───────────────────────── C8: stagger delays ───────────────────────── -/

/-- The delays of the layout output: module nodes at i*0.1, child
nodes at i*0.1 + (j+1)*0.06, parent-child edges at i*0.1 + (j+1)*0.08,
and cross edges at N*0.1 + i*0.12, whenever every module is named and
every edge entry resolves. -/
theorem forceLayout_delays (M : JsMath) (rand : Nat → ℚ) (mods : List ModuleEntry)
    (gEs : List EdgeEntry) (W H : ℚ)
    (hnamed : ∀ m ∈ mods, m.module.isSome = true)
    (hknown : ∀ e ∈ gEs, e.source ∈ allIds mods ∧ e.target ∈ allIds mods) :
    Except.map (fun l => (l.nodes.map GNode.delay, l.edges.map GEdge.delay))
      (forceLayout M rand (some ⟨some mods, some gEs⟩) W H)
      = .ok (specModuleDelays mods.length ++ specChildDelays mods,
             specPcDelays mods ++ specCrossDelays mods.length gEs.length) := by
  obtain ⟨ns1, nm1, ns2, nm2, pcEs, h1, h2, hmem1, hkeys, hpc, hd2, hd1⟩ :=
    forceLayout_keys M rand mods W H hnamed
  rw [forceLayout_main M rand mods gEs W H ns1 nm1 ns2 nm2 pcEs h1 h2]
  simp only [Except.map]
  have hlen : ((simIter M (ns2.map (fun n => n.r)) pcEs (W/2) (H/2) W H)^[80]
      (ns2.map (fun n => Vec.mk n.tx n.ty), ns2.map (fun _ => Vec.mk 0 0))).1.length
      = ns2.length :=
    (iterate_sim_lengths M (ns2.map (fun n => n.r)) pcEs (W/2) (H/2) W H 80 _ ns2.length
      (by simp) (by simp)).1
  have hkn : ∀ e ∈ gEs,
      (lookupS nm2 e.source).isSome = true ∧ (lookupS nm2 e.target).isSome = true := by
    intro e he
    obtain ⟨hs, ht⟩ := hknown e he
    exact ⟨(lookupS_isSome_iff nm2 e.source).mpr ((hkeys _).mpr hs),
      (lookupS_isSome_iff nm2 e.target).mpr ((hkeys _).mpr ht)⟩
  rw [applyPositions_map GNode.delay (fun n p => rfl) ns2 _ hlen, hd2, hd1,
    crossLoop_delays_known mods.length nm2 gEs 0 pcEs hkn, hpc]
  rfl

/-- C8 (amended): for every module index i and child index j produced
by the builder: module node i has startDelay i*0.1 s; its j-th child
node has startDelay i*0.1 + (j+1)*0.06 s; the parent-child edge to
that child has startDelay i*0.1 + (j+1)*0.08 s — that is, the child
node's delay plus (j+1)*0.02 s, not the flat +0.02 s the claim stated;
and the i-th cross-module edge has startDelay
moduleCount*0.1 + i*0.12 s.  Stated as the full delay sequences of the
layout output against the claim's formulas. -/
theorem C8_start_delays_amended (M : JsMath) (rand : Nat → ℚ) (mods : List ModuleEntry)
    (gEs : List EdgeEntry) (W H : ℚ)
    (hnamed : ∀ m ∈ mods, m.module.isSome = true)
    (hknown : ∀ e ∈ gEs, e.source ∈ allIds mods ∧ e.target ∈ allIds mods) :
    Except.map (fun l => (l.nodes.map GNode.delay, l.edges.map GEdge.delay))
      (forceLayout M rand (some ⟨some mods, some gEs⟩) W H)
      = .ok (specModuleDelays mods.length ++ specChildDelays mods,
             specPcDelays mods ++ specCrossDelays mods.length gEs.length) :=
  forceLayout_delays M rand mods gEs W H hnamed hknown

/-- C8 counterexample: one module a.py with two functions f and g.
The second child node (j = 1) has delay 0*0.1 + 2*0.06 = 0.12 s, and
its parent-child edge has delay 0.16 s (the code's
i*0.1 + (j+1)*0.08), not the claimed child delay + 0.02 = 0.14 s. -/
theorem C8_pc_edge_delay_cex :
    Except.map (fun l => (l.nodes.map GNode.delay, l.edges.map GEdge.delay))
      (forceLayout mathZero randZero
        (some ⟨some [⟨some "a.py", some "a.py", some [⟨"f"⟩, ⟨"g"⟩], some []⟩], some []⟩)
        800 600)
      = .ok ([0, 6/100, 12/100], [8/100, 16/100]) ∧
    (16/100 : ℚ) ≠ 12/100 + 2/100 := by
  constructor
  · rw [forceLayout_delays mathZero randZero
      [⟨some "a.py", some "a.py", some [⟨"f"⟩, ⟨"g"⟩], some []⟩] [] 800 600
      (by decide) (by decide)]
    norm_num [specModuleDelays, specModuleSeq, specChildDelays, specChildDelaysFrom,
      specChildSeq, childrenOf, specPcDelays, specPcDelaysFrom, specPcSeq,
      specCrossDelays, specCrossSeq]
  · norm_num

/-- Witness for C8 (amended) on one module a.py with functions f and g
and a resolving self-import edge. -/
theorem C8_start_delays_amended_witness :
    Except.map (fun l => (l.nodes.map GNode.delay, l.edges.map GEdge.delay))
      (forceLayout mathZero randZero
        (some ⟨some [⟨some "a.py", some "a.py", some [⟨"f"⟩, ⟨"g"⟩], some []⟩],
               some [⟨"a.py", "a.py"⟩]⟩) 800 600)
      = .ok (specModuleDelays 1 ++
          specChildDelays [⟨some "a.py", some "a.py", some [⟨"f"⟩, ⟨"g"⟩], some []⟩],
        specPcDelays [⟨some "a.py", some "a.py", some [⟨"f"⟩, ⟨"g"⟩], some []⟩] ++
          specCrossDelays 1 1) :=
  C8_start_delays_amended mathZero randZero
    [⟨some "a.py", some "a.py", some [⟨"f"⟩, ⟨"g"⟩], some []⟩] [⟨"a.py", "a.py"⟩] 800 600
    (by decide) (by decide)

/- ───────────────────────── C4: the two-module scenario ───────────────────────── -/

/-- loop1's nodes are the module nodes, ids in input order. -/
theorem loop1_ids (M : JsMath) (rand : Nat → ℚ) (N : Nat) (cx cy baseR : ℚ) :
    ∀ (rest : List ModuleEntry) (i : Nat) (ns : List GNode) (nm : List (String × Nat)),
      (∀ m ∈ rest, m.module.isSome = true) →
      Except.map (fun r => r.1.map GNode.id) (loop1 M rand N cx cy baseR rest i ns nm)
        = .ok (ns.map GNode.id ++ moduleIds rest) := by
  intro rest
  induction rest with
  | nil => intro i ns nm _; simp [loop1, moduleIds, Except.map]
  | cons m t ih =>
    intro i ns nm h
    obtain ⟨mid, hmid⟩ := Option.isSome_iff_exists.mp (h m (List.mem_cons_self _ _))
    simp only [loop1, hmid]
    rw [ih]
    · simp [GNode.make, moduleIds, hmid]
    · exact fun u hu => h u (List.mem_cons_of_mem _ hu)

/-- The child loop's nodes gain this module's child ids in order. -/
theorem childLoop_ids (M : JsMath) (rand : Nat → ℚ) (mid : String) (i : Nat)
    (ptx pty : ℚ) (pidx clen : Nat) :
    ∀ (ch : List (String × String)) (j : Nat) (ns : List GNode) (nm : List (String × Nat))
      (es : List GEdge),
      (childLoop M rand mid i ptx pty pidx clen ch j ns nm es).1.map GNode.id
        = ns.map GNode.id ++ ch.map (fun c => mid ++ "::" ++ c.1) := by
  intro ch
  induction ch with
  | nil => intro j ns nm es; simp [childLoop]
  | cons c t ih =>
    intro j ns nm es
    simp only [childLoop]
    rw [ih]
    simp [GNode.make]

/-- loop2 appends exactly the child ids, module by module. -/
theorem loop2_ids (M : JsMath) (rand : Nat → ℚ) :
    ∀ (rest : List ModuleEntry) (i : Nat) (ns : List GNode) (nm : List (String × Nat))
      (es : List GEdge),
      (∀ m ∈ rest, m.module.isSome = true) →
      (∀ m ∈ rest, (m.module.getD "") ∈ nm.map Prod.fst) →
      Except.map (fun r => r.1.map GNode.id) (loop2 M rand rest i ns nm es)
        = .ok (ns.map GNode.id ++ childIds rest) := by
  intro rest
  induction rest with
  | nil => intro i ns nm es _ _; simp [loop2, childIds, Except.map]
  | cons m t ih =>
    intro i ns nm es h hmem
    obtain ⟨mid, hmid⟩ := Option.isSome_iff_exists.mp (h m (List.mem_cons_self _ _))
    have hinmap : mid ∈ nm.map Prod.fst := by
      have := hmem m (List.mem_cons_self _ _)
      rwa [hmid, Option.getD_some] at this
    obtain ⟨pidx, hpidx⟩ :=
      Option.isSome_iff_exists.mp ((lookupS_isSome_iff nm mid).mpr hinmap)
    simp only [loop2, hmid, hpidx]
    rw [ih]
    · rw [childLoop_ids]
      simp [childIds, childIdsOf, hmid, List.append_assoc]
    · exact fun u hu => h u (List.mem_cons_of_mem _ hu)
    · intro u hu
      rw [childLoop_keys]
      exact List.mem_append_right _ (hmem u (List.mem_cons_of_mem _ hu))

/-- The claim's scenario input, with the module ids under the key
"path" as the claim (and the spec's interface section) writes them. -/
def c4GraphPath : GraphInput :=
  ⟨some [⟨none, some "a.py", some [⟨"f"⟩], some []⟩,
         ⟨none, some "b.py", some [], some [⟨"C"⟩]⟩],
   some [⟨"a.py", "b.py"⟩]⟩

/-- The scenario's module entries with the module ids under the key
"module", the key the builder actually reads. -/
def c4Mods : List ModuleEntry :=
  [⟨some "a.py", some "a.py", some [⟨"f"⟩], some []⟩,
   ⟨some "b.py", some "b.py", some [], some [⟨"C"⟩]⟩]

/-- The scenario input with the module ids under the key the builder
reads. -/
def c4GraphFixed : GraphInput := ⟨some c4Mods, some [⟨"a.py", "b.py"⟩]⟩

/-- C4 counterexample: on the claim's input, whose module entries carry
the key "path" but not the key "module", the builder reads mod.module
(undefined) and calls .split on it, so forceLayout throws a TypeError
instead of producing the four nodes the claim describes. -/
theorem C4_scenario_cex :
    forceLayout mathZero randZero (some c4GraphPath) 800 600 = .error jsUndefinedError := rfl

/-- C4 (amended): with the module identifier supplied under the key
"module" (the field the builder reads) instead of "path", the builder
plus layout solver produce exactly 4 nodes with ids a.py, b.py,
a.py::f, b.py::C (in that order) and exactly 3 edges, 2 parent-child
(empty label) and 1 cross-module ('imports'), and all 4 final node
positions lie within the canvas bounds after the 80 layout iterations
(canvas 800 by 600, margins [40, 760] and [40, 560]) — for every Math
implementation and random stream. -/
theorem C4_scenario_amended (M : JsMath) (rand : Nat → ℚ) :
    Except.map (fun l => (l.nodes.map GNode.id, l.edges.map GEdge.label,
        l.nodes.all (nodeInBounds 800 600)))
      (forceLayout M rand (some c4GraphFixed) 800 600)
      = .ok (["a.py", "b.py", "a.py::f", "b.py::C"], ["", "", "imports"], true) := by
  have hnamed : ∀ m ∈ c4Mods, m.module.isSome = true := by decide
  obtain ⟨ns1, nm1, ns2, nm2, pcEs, h1, h2, hmem1, hkeys, hpc, hd2, hd1⟩ :=
    forceLayout_keys M rand c4Mods 800 600 hnamed
  have hfl := forceLayout_main M rand c4Mods [⟨"a.py", "b.py"⟩] 800 600 ns1 nm1 ns2 nm2 pcEs h1 h2
  obtain ⟨⟨ns1a, nm1a⟩, h1a, hid1⟩ := exceptMap_ok_elim
    (loop1_ids M rand c4Mods.length (800/2) (600/2) (jsMin 800 600 * (32/100)) c4Mods 0 [] []
      hnamed)
  rw [h1] at h1a
  have hid1b : ns1.map GNode.id = moduleIds c4Mods := by
    rw [show ns1 = ns1a from congrArg Prod.fst (Except.ok.inj h1a)]
    simpa using hid1
  obtain ⟨⟨ns2a, nma⟩, h2a, hid2⟩ := exceptMap_ok_elim
    (loop2_ids M rand c4Mods 0 ns1 nm1 [] hnamed hmem1)
  rw [h2] at h2a
  have hid2b : ns2.map GNode.id = ns1.map GNode.id ++ childIds c4Mods := by
    rw [show ns2 = ns2a from congrArg Prod.fst (Except.ok.inj h2a)]
    exact hid2
  have hlabels := forceLayout_edge_labels M rand c4Mods [⟨"a.py", "b.py"⟩] 800 600 hnamed
  rw [hfl] at hlabels
  simp only [Except.map] at hlabels
  have hlabs := Except.ok.inj hlabels
  have hbounds := forceLayout_bounds_aux M rand (some c4GraphFixed) 800 600
    (by norm_num) (by norm_num) _ hfl
  have hlen : ((simIter M (ns2.map (fun n => n.r)) pcEs (800/2) (600/2) 800 600)^[80]
      (ns2.map (fun n => Vec.mk n.tx n.ty), ns2.map (fun _ => Vec.mk 0 0))).1.length
      = ns2.length :=
    (iterate_sim_lengths M (ns2.map (fun n => n.r)) pcEs (800/2) (600/2) 800 600 80 _
      ns2.length (by simp) (by simp)).1
  have hboundsb : (applyPositions ns2 ((simIter M (ns2.map (fun n => n.r)) pcEs (800/2) (600/2)
      800 600)^[80] (ns2.map (fun n => Vec.mk n.tx n.ty),
        ns2.map (fun _ => Vec.mk 0 0))).1).all (nodeInBounds 800 600) = true := hbounds
  unfold c4GraphFixed
  rw [hfl]
  simp only [Except.map]
  rw [applyPositions_map GNode.id (fun n p => rfl) ns2 _ hlen, hid2b, hid1b, hlabs, hboundsb]
  exact congrArg Except.ok (by decide)

/-- Witness for C5 at the concrete scenario graph on a 800 by 600
canvas. -/
theorem C5_layout_bounds_witness :
    (forceLayout mathZero randZero (some c4GraphFixed) 800 600).toOption.all
      (fun l => l.nodes.all (nodeInBounds 800 600)) = true :=
  C5_layout_bounds mathZero randZero (some c4GraphFixed) 800 600 (by norm_num) (by norm_num)

/- ───────────────────────── C6: determinism machinery ───────────────────────── -/

/-- Erase the only randomly seeded field of a node (the idle-pulsation
phase).  Two runs of the builder with different Math.random streams
agree up to this erasure. -/
def eraseP (n : GNode) : GNode := { n with pulse := 0 }

/-- A projection that ignores the pulse transports along erasure
equality of node lists. -/
theorem map_of_erase {α : Type} (g : GNode → α) (hg : ∀ n, g (eraseP n) = g n)
    (ns ns' : List GNode) (h : ns.map eraseP = ns'.map eraseP) : ns.map g = ns'.map g := by
  have h1 : ns.map g = (ns.map eraseP).map g := by
    rw [List.map_map]
    exact (List.map_congr_left (fun a _ => (hg a).symm))
  have h2 : ns'.map g = (ns'.map eraseP).map g := by
    rw [List.map_map]
    exact (List.map_congr_left (fun a _ => (hg a).symm))
  rw [h1, h2, h]

/-- Erasure equality survives writing the simulated positions back. -/
theorem applyPositions_erase (ps : List Vec) :
    ∀ (ns ns' : List GNode), ns.map eraseP = ns'.map eraseP →
      (applyPositions ns ps).map eraseP = (applyPositions ns' ps).map eraseP := by
  induction ps with
  | nil =>
    intro ns ns' _
    unfold applyPositions
    rw [List.zipWith_nil_right, List.zipWith_nil_right]
  | cons p q ih =>
    intro ns ns' h
    cases ns with
    | nil =>
      cases ns' with
      | nil => rfl
      | cons b t' => simp at h
    | cons a t =>
      cases ns' with
      | nil => simp at h
      | cons b t' =>
        simp only [List.map_cons, List.cons.injEq] at h
        unfold applyPositions
        rw [List.zipWith_cons_cons, List.zipWith_cons_cons, List.map_cons, List.map_cons]
        have hhead : eraseP { a with tx := p.x, ty := p.y, x := p.x, y := p.y - 50 }
            = eraseP { b with tx := p.x, ty := p.y, x := p.x, y := p.y - 50 } := by
          have : ∀ (c : GNode), eraseP { c with tx := p.x, ty := p.y, x := p.x, y := p.y - 50 }
              = { eraseP c with tx := p.x, ty := p.y, x := p.x, y := p.y - 50 } := fun c => rfl
          rw [this, this, h.1]
        rw [hhead]
        exact congrArg _ (ih t t' h.2)

/-- loop1 runs under two random streams agree up to pulse erasure. -/
theorem loop1_erase (M : JsMath) (r1 r2 : Nat → ℚ) (N : Nat) (cx cy baseR : ℚ) :
    ∀ (rest : List ModuleEntry) (i : Nat) (ns ns' : List GNode) (nm : List (String × Nat)),
      ns.map eraseP = ns'.map eraseP →
      Except.map (fun r => (r.1.map eraseP, r.2)) (loop1 M r1 N cx cy baseR rest i ns nm)
        = Except.map (fun r => (r.1.map eraseP, r.2)) (loop1 M r2 N cx cy baseR rest i ns' nm) := by
  intro rest
  induction rest with
  | nil =>
    intro i ns ns' nm h
    simp [loop1, Except.map, h]
  | cons m t ih =>
    intro i ns ns' nm h
    have hlen : ns.length = ns'.length := by
      have := congrArg List.length h
      simpa using this
    cases hmid : m.module with
    | none => simp [loop1, hmid]
    | some mid =>
      simp only [loop1, hmid]
      rw [hlen]
      apply ih
      simp only [List.map_append, h]
      rfl

/-- child loops under two random streams agree up to pulse erasure:
same node map, same edges, erasure-equal nodes. -/
theorem childLoop_erase (M : JsMath) (r1 r2 : Nat → ℚ) (mid : String) (i : Nat)
    (ptx pty : ℚ) (pidx clen : Nat) :
    ∀ (ch : List (String × String)) (j : Nat) (ns ns' : List GNode)
      (nm : List (String × Nat)) (es : List GEdge),
      ns.map eraseP = ns'.map eraseP →
      (childLoop M r1 mid i ptx pty pidx clen ch j ns nm es).1.map eraseP
          = (childLoop M r2 mid i ptx pty pidx clen ch j ns' nm es).1.map eraseP ∧
      (childLoop M r1 mid i ptx pty pidx clen ch j ns nm es).2.1
          = (childLoop M r2 mid i ptx pty pidx clen ch j ns' nm es).2.1 ∧
      (childLoop M r1 mid i ptx pty pidx clen ch j ns nm es).2.2
          = (childLoop M r2 mid i ptx pty pidx clen ch j ns' nm es).2.2 := by
  intro ch
  induction ch with
  | nil =>
    intro j ns ns' nm es h
    exact ⟨h, rfl, rfl⟩
  | cons c t ih =>
    intro j ns ns' nm es h
    have hlen : ns.length = ns'.length := by
      have := congrArg List.length h
      simpa using this
    simp only [childLoop]
    rw [hlen]
    apply ih
    simp only [List.map_append, h]
    rfl

/-- loop2 runs under two random streams agree up to pulse erasure. -/
theorem loop2_erase (M : JsMath) (r1 r2 : Nat → ℚ) :
    ∀ (rest : List ModuleEntry) (i : Nat) (ns ns' : List GNode)
      (nm : List (String × Nat)) (es : List GEdge),
      ns.map eraseP = ns'.map eraseP →
      Except.map (fun r => (r.1.map eraseP, r.2.1, r.2.2)) (loop2 M r1 rest i ns nm es)
        = Except.map (fun r => (r.1.map eraseP, r.2.1, r.2.2))
            (loop2 M r2 rest i ns' nm es) := by
  intro rest
  induction rest with
  | nil =>
    intro i ns ns' nm es h
    simp [loop2, Except.map, h]
  | cons m t ih =>
    intro i ns ns' nm es h
    cases hmid : m.module with
    | none => simp [loop2, hmid]
    | some mid =>
      cases hpid : lookupS nm mid with
      | none => simp [loop2, hmid, hpid]
      | some pidx =>
        simp only [loop2, hmid, hpid]
        have hpar : eraseP (ns.getD pidx (GNode.make "" "" "" 0 0 0 0 0))
            = eraseP (ns'.getD pidx (GNode.make "" "" "" 0 0 0 0 0)) := by
          have hq : (ns.map eraseP).getD pidx (eraseP (GNode.make "" "" "" 0 0 0 0 0))
              = (ns'.map eraseP).getD pidx (eraseP (GNode.make "" "" "" 0 0 0 0 0)) := by
            rw [h]
          rwa [List.getD_map, List.getD_map] at hq
        have htx : (ns.getD pidx (GNode.make "" "" "" 0 0 0 0 0)).tx
            = (ns'.getD pidx (GNode.make "" "" "" 0 0 0 0 0)).tx := by
          have := congrArg GNode.tx hpar
          simpa [eraseP] using this
        have hty : (ns.getD pidx (GNode.make "" "" "" 0 0 0 0 0)).ty
            = (ns'.getD pidx (GNode.make "" "" "" 0 0 0 0 0)).ty := by
          have := congrArg GNode.ty hpar
          simpa [eraseP] using this
        rw [htx, hty]
        obtain ⟨he1, he2, he3⟩ := childLoop_erase M r1 r2 mid i
          (ns'.getD pidx (GNode.make "" "" "" 0 0 0 0 0)).tx
          (ns'.getD pidx (GNode.make "" "" "" 0 0 0 0 0)).ty pidx
          (childrenOf m).length (childrenOf m) 0 ns ns' nm es h
        rw [he2, he3]
        exact ih _ _ _ _ _ he1

/-- C6: for every module/edge input, every canvas size and every Math
implementation, two runs of the builder plus layout solver — differing
only in the Math.random stream consumed by the node constructors —
produce identical final target coordinates (and ids) for every node:
the solved layout is deterministic given identical input order and
canvas size. -/
theorem C6_two_run_determinism (M : JsMath) (r1 r2 : Nat → ℚ) (g : Option GraphInput)
    (W H : ℚ) :
    Except.map (fun l => l.nodes.map (fun n => (n.id, n.tx, n.ty))) (forceLayout M r1 g W H)
      = Except.map (fun l => l.nodes.map (fun n => (n.id, n.tx, n.ty)))
          (forceLayout M r2 g W H) := by
  cases g with
  | none => rfl
  | some gg =>
    cases hmod : gg.modules with
    | none => simp [forceLayout, hmod]
    | some mods =>
      have hl1 := loop1_erase M r1 r2 mods.length (W/2) (H/2) (jsMin W H * (32/100))
        mods 0 [] [] [] rfl
      cases h1 : loop1 M r1 mods.length (W/2) (H/2) (jsMin W H * (32/100)) mods 0 [] [] with
      | error e =>
        cases h1b : loop1 M r2 mods.length (W/2) (H/2) (jsMin W H * (32/100)) mods 0 [] [] with
        | error eb =>
          rw [h1, h1b] at hl1
          simp only [Except.map] at hl1
          injection hl1 with he
          subst he
          simp [forceLayout, hmod, h1, h1b]
        | ok vb =>
          rw [h1, h1b] at hl1
          exact absurd hl1 (by simp [Except.map])
      | ok v =>
        obtain ⟨ns1, nm1⟩ := v
        cases h1b : loop1 M r2 mods.length (W/2) (H/2) (jsMin W H * (32/100)) mods 0 [] [] with
        | error eb =>
          rw [h1, h1b] at hl1
          exact absurd hl1 (by simp [Except.map])
        | ok vb =>
          obtain ⟨ns1b, nm1b⟩ := vb
          rw [h1, h1b] at hl1
          simp only [Except.map] at hl1
          have hl1p := Except.ok.inj hl1
          have hns1 : ns1.map eraseP = ns1b.map eraseP := congrArg Prod.fst hl1p
          have hnm1 : nm1 = nm1b := congrArg Prod.snd hl1p
          subst hnm1
          have hl2 := loop2_erase M r1 r2 mods 0 ns1 ns1b nm1 [] hns1
          cases h2 : loop2 M r1 mods 0 ns1 nm1 [] with
          | error e2 =>
            cases h2b : loop2 M r2 mods 0 ns1b nm1 [] with
            | error e2b =>
              rw [h2, h2b] at hl2
              simp only [Except.map] at hl2
              injection hl2 with he2
              subst he2
              simp [forceLayout, hmod, h1, h1b, h2, h2b]
            | ok wb =>
              rw [h2, h2b] at hl2
              exact absurd hl2 (by simp [Except.map])
          | ok w =>
            obtain ⟨ns2, nm2, pcEs⟩ := w
            cases h2b : loop2 M r2 mods 0 ns1b nm1 [] with
            | error e2b =>
              rw [h2, h2b] at hl2
              exact absurd hl2 (by simp [Except.map])
            | ok wb =>
              obtain ⟨ns2b, nm2b, pcEsb⟩ := wb
              rw [h2, h2b] at hl2
              simp only [Except.map] at hl2
              have hl2p := Except.ok.inj hl2
              have hns2 : ns2.map eraseP = ns2b.map eraseP := congrArg Prod.fst hl2p
              have hnm2 : nm2 = nm2b := congrArg (fun q => q.2.1) hl2p
              have hpcE : pcEs = pcEsb := congrArg (fun q => q.2.2) hl2p
              subst hnm2
              subst hpcE
              simp only [forceLayout, hmod, h1, h1b, h2, h2b, Except.map]
              have hr : ns2.map (fun n => n.r) = ns2b.map (fun n => n.r) :=
                map_of_erase (fun n => n.r) (fun n => rfl) _ _ hns2
              have hp : ns2.map (fun n => Vec.mk n.tx n.ty)
                  = ns2b.map (fun n => Vec.mk n.tx n.ty) :=
                map_of_erase (fun n => Vec.mk n.tx n.ty) (fun n => rfl) _ _ hns2
              have hv : ns2.map (fun _ => Vec.mk 0 0) = ns2b.map (fun _ => Vec.mk 0 0) :=
                map_of_erase (fun _ => Vec.mk 0 0) (fun n => rfl) _ _ hns2
              rw [hr, hp, hv]
              exact congrArg Except.ok
                (map_of_erase (fun n => (n.id, n.tx, n.ty)) (fun n => rfl) _ _
                  (applyPositions_erase _ _ _ hns2))
